import Mathlib

set_option maxRecDepth 8192

/-!
# Verification of the matroska-go EBML/Matroska decoder

A shallow embedding of the decoding core of the `matroska-go` repository
(`ebml.go`, `parser.go`, `matroska.go`), together with theorems settling the
frozen claims about its specification.

Bytes are modelled as natural numbers below 256 inside `List Nat`; the byte
cursor of Go's `io.ReadSeeker` as wrapped by `EBMLReader` is modelled by the
`Reader` structure (underlying data plus a position that may run past the end,
exactly as a seekable stream allows).  Go errors are modelled by the `GoErr`
inductive; `fmt.Errorf("...: %w", err)` wrapping is modelled by `GoErr.wrapped`
(a wrapped error never compares equal to `io.EOF` under Go's `==`, which the
source uses).  Loops are given explicit fuel; running out of fuel yields the
distinguished `GoErr.fuelOut`, which is never reached in any theorem below.
-/

namespace MatroskaGo

/-- The byte cursor: the underlying stream contents and the current offset.
Mirrors `EBMLReader` from `ebml.go` (the `pos` tracking field together with the
wrapped `io.ReadSeeker`). Seeking may position the cursor past the end, in
which case reads fail with end-of-file, as for a real seekable stream. -/
structure Reader where
  data : List Nat
  pos : Nat
  deriving Repr, DecidableEq

/-- The error values produced by the Go sources.  `eof` is the bare `io.EOF`
value; `wrapped e` is `fmt.Errorf("...: %w", e)`, which is *not* `==`-equal to
`io.EOF` (the source compares errors with `==`, not `errors.Is`).
`panicked` models a Go runtime panic (out-of-range index/slice), and `fuelOut`
is the artefact of fuel exhaustion in this embedding, never hit with enough
fuel. -/
inductive GoErr where
  | eof
  | unexpectedEOF
  | malformedVInt
  | unknownSize
  | unexpectedElement (idv : Nat)
  | unsupportedDocType (s : List Nat)
  | blockTooShort
  | blockTooShortTimestamp
  | blockTooShortFlags
  | lacedBlockTooShort
  | invalidTrackNumber
  | panicked
  | fuelOut
  | wrapped (e : GoErr)
  deriving Repr, DecidableEq

/-- Decidable equality for `Except` results, so that concrete runs of the
embedded functions can be checked by `decide`. -/
instance {e a : Type} [DecidableEq e] [DecidableEq a] : DecidableEq (Except e a) := fun x y =>
  match x, y with
  | .error u, .error v =>
    if h : u = v then .isTrue (by rw [h]) else .isFalse (by simp [h])
  | .ok u, .ok v =>
    if h : u = v then .isTrue (by rw [h]) else .isFalse (by simp [h])
  | .error _, .ok _ => .isFalse (by simp)
  | .ok _, .error _ => .isFalse (by simp)

/-- One `Read` of a single byte (`er.r.Read(b[:])` on a one-byte buffer),
advancing the position; at or past the end of the stream it fails with
`io.EOF`. -/
def readByte (r : Reader) : Except GoErr (Nat × Reader) :=
  match r.data[r.pos]? with
  | some b => .ok (b, ⟨r.data, r.pos + 1⟩)
  | none => .error .eof

/-- The first-byte analysis of `readVInt` in `ebml.go`: the if-chain that
determines `(length, lengthMask)` from the highest set bit among bits 7..0.
`none` corresponds to the (unreachable for a nonzero byte) "no length marker
found" branch. -/
def vintLengthMask (b : Nat) : Option (Nat × Nat) :=
  if b &&& 0x80 ≠ 0 then some (1, 0x80)
  else if b &&& 0x40 ≠ 0 then some (2, 0x40)
  else if b &&& 0x20 ≠ 0 then some (3, 0x20)
  else if b &&& 0x10 ≠ 0 then some (4, 0x10)
  else if b &&& 0x08 ≠ 0 then some (5, 0x08)
  else if b &&& 0x04 ≠ 0 then some (6, 0x04)
  else if b &&& 0x02 ≠ 0 then some (7, 0x02)
  else if b &&& 0x01 ≠ 0 then some (8, 0x01)
  else none

/-- The remaining-bytes loop of `readVInt`: `for i := 1; i < length; i++ {
result = (result << 8) | uint64(b[0]) }`, with `uint64` shift wrap-around made
explicit. -/
def readVIntRest : Nat → Nat → Reader → Except GoErr (Nat × Reader)
  | 0, acc, r => .ok (acc, r)
  | n + 1, acc, r =>
    match readByte r with
    | .error e => .error e
    | .ok (b, r1) => readVIntRest n (((acc <<< 8) % 2 ^ 64) ||| b) r1

/-- `EBMLReader.readVInt` from `ebml.go`: reads one variable-length integer.
With `keepLengthMarker = false` (the `ReadVInt` entry point, used for sizes)
the marker bits are stripped from the first byte; with `true` (the
`ReadVIntID` entry point, used for element IDs) the raw first byte is kept. -/
def readVInt (keepLengthMarker : Bool) (r : Reader) : Except GoErr (Nat × Reader) :=
  match readByte r with
  | .error e => .error e
  | .ok (firstByte, r1) =>
    if firstByte = 0 then .error .malformedVInt
    else
      match vintLengthMask firstByte with
      | none => .error .malformedVInt
      | some (length, lengthMask) =>
        let init := if keepLengthMarker then firstByte else firstByte &&& (lengthMask - 1)
        readVIntRest (length - 1) init r1

/-- `io.ReadFull` of `n` bytes from the underlying stream: succeeds only if
`n` bytes are available from the current position; returns `io.EOF` if
nothing could be read at all and `io.ErrUnexpectedEOF` on a short read,
exactly as `io.ReadFull` does.  A zero-length read always succeeds.
`Reader.pos` is the *true* stream cursor (how many bytes have been consumed
from the underlying `io.Reader`); the separate `EBMLReader.pos` tracker that
backs `Position()` is advanced only where the source advances it, and is
threaded explicitly (`epos`) through the functions that observe it. -/
def readFull (n : Nat) (r : Reader) : Except GoErr (List Nat × Reader) :=
  if n = 0 then .ok ([], r)
  else if r.pos + n ≤ r.data.length then
    .ok ((r.data.drop r.pos).take n, ⟨r.data, r.pos + n⟩)
  else if r.data.length ≤ r.pos then .error .eof
  else .error .unexpectedEOF

/-- The stream motion of `EBMLReader.Seek(offset, io.SeekCurrent)`: the
underlying seek advances the true cursor without reading; a seekable stream
permits positioning past the end.  (`er.Seek` additionally resynchronises the
tracked `EBMLReader.pos` to the returned position, i.e. to `r.pos + offset`;
callers model that on their threaded `epos`.) -/
def seekCurrent (offset : Nat) (r : Reader) : Reader := ⟨r.data, r.pos + offset⟩

/-- `EBMLElement` from `ebml.go`: decoded ID (a `uint32`), declared size and
payload bytes. -/
structure EBMLElement where
  idv : Nat
  size : Nat
  data : List Nat
  deriving Repr, DecidableEq

/-- `EBMLReader.ReadElement`: ID VINT in identifier mode, size VINT in value
mode, rejection of the decoded size `(1<<(7*8))-1` ("unknown size elements not
supported"), then the payload of exactly `size` bytes.  Failures of the inner
reads are wrapped (`fmt.Errorf` with `%w`). -/
def readElement (r : Reader) : Except GoErr (EBMLElement × Reader) :=
  match readVInt true r with
  | .error e => .error (.wrapped e)
  | .ok (idv, r1) =>
    match readVInt false r1 with
    | .error e => .error (.wrapped e)
    | .ok (size, r2) =>
      if size = 2 ^ 56 - 1 then .error .unknownSize
      else
        match readFull size r2 with
        | .error e => .error (.wrapped e)
        | .ok (payload, r3) => .ok (⟨idv % 2 ^ 32, size, payload⟩, r3)

/-- `EBMLReader.ReadElementHeader`: ID and size only, leaving the cursor at the
payload start. -/
def readElementHeader (r : Reader) : Except GoErr (Nat × Nat × Reader) :=
  match readVInt true r with
  | .error e => .error (.wrapped e)
  | .ok (idv, r1) =>
    match readVInt false r1 with
    | .error e => .error (.wrapped e)
    | .ok (size, r2) => .ok (idv % 2 ^ 32, size, r2)

/-- `EBMLElement.ReadUInt`: big-endian accumulation into a `uint64` (with the
shift wrap-around explicit; an empty payload yields 0 as in the source). -/
def EBMLElement.readUInt (el : EBMLElement) : Nat :=
  el.data.foldl (fun result b => ((result <<< 8) % 2 ^ 64) ||| b) 0

/-- Two's-complement reading of `bits`-wide machine integers. -/
def toSigned (bits : Nat) (n : Nat) : Int :=
  if n < 2 ^ (bits - 1) then (n : Int) else (n : Int) - 2 ^ bits

/-- `EBMLElement.ReadString`: drop exactly one trailing NUL byte if present.
Go strings are byte sequences; they are modelled as `List Nat`. -/
def EBMLElement.readString (el : EBMLElement) : List Nat :=
  match el.data.getLast? with
  | some 0 => el.data.dropLast
  | _ => el.data

/-- `EBMLElement.ReadBytes`: the raw payload. -/
def EBMLElement.readBytes (el : EBMLElement) : List Nat := el.data

/-- Go `float64` values as they occur in this code base, modelled symbolically:
a source literal, the IEEE bit pattern read from a 4- or 8-byte element, or the
zero value.  No claim under verification depends on float arithmetic. -/
inductive GoFloat where
  | zero
  | lit (num : Int) (den : Nat)
  | ofBits32 (bits : Nat)
  | ofBits64 (bits : Nat)
  deriving Repr, DecidableEq

/-- `EBMLElement.ReadFloat`: a 4-byte payload is a big-endian `float32` bit
pattern, an 8-byte payload a `float64` bit pattern, anything else 0.0. -/
def EBMLElement.readFloat (el : EBMLElement) : GoFloat :=
  match el.data.length with
  | 4 => .ofBits32 el.readUInt
  | 8 => .ofBits64 el.readUInt
  | _ => .zero

/-- Go's `x == 0` on a `float64`: true exactly for positive and negative
zero. -/
def GoFloat.isZero : GoFloat → Bool
  | .zero => true
  | .lit num _ => num == 0
  | .ofBits32 b => b == 0 || b == 2 ^ 31
  | .ofBits64 b => b == 0 || b == 2 ^ 63

/-- Element IDs from `ebml.go` (decoded in identifier mode, marker retained). -/
def IDEBMLHeader : Nat := 0x1A45DFA3

def IDEBMLVersion : Nat := 0x4286

def IDEBMLReadVersion : Nat := 0x42F7

def IDEBMLMaxIDLength : Nat := 0x42F2

def IDEBMLMaxSizeLength : Nat := 0x42F3

def IDEBMLDocType : Nat := 0x4282

def IDEBMLDocTypeVersion : Nat := 0x4287

def IDEBMLDocTypeReadVersion : Nat := 0x4285

def IDSegment : Nat := 0x18538067

def IDTrackEntry : Nat := 0xAE

def IDTrackNum : Nat := 0xD7

def IDTrackUID : Nat := 0x73C5

def IDTrackType : Nat := 0x83

def IDTrackName : Nat := 0x536E

def IDLanguage : Nat := 0x22B59C

def IDCodecID : Nat := 0x86

def IDCodecPriv : Nat := 0x63A2

def IDVideo : Nat := 0xE0

def IDAudio : Nat := 0xE1

def IDFlagInterlaced : Nat := 0x9A

def IDPixelWidth : Nat := 0xB0

def IDPixelHeight : Nat := 0xBA

def IDDisplayWidth : Nat := 0x54B0

def IDDisplayHeight : Nat := 0x54BA

def IDSamplingFrequency : Nat := 0xB5

def IDOutputSamplingFrequency : Nat := 0x78B5

def IDChannels : Nat := 0x9F

def IDBitDepth : Nat := 0x6264

def IDCluster : Nat := 0x1F43B675

def IDTimestamp : Nat := 0xE7

def IDSimpleBlock : Nat := 0xA3

def IDBlockGroup : Nat := 0xA0

def IDBlock : Nat := 0xA1

/-- `EBMLHeader` from `ebml.go`. -/
structure EBMLHeaderRec where
  version : Nat
  readVersion : Nat
  maxIDLength : Nat
  maxSizeLength : Nat
  docType : List Nat
  docTypeVersion : Nat
  docTypeReadVersion : Nat
  deriving Repr, DecidableEq

/-- The zero value `&EBMLHeader{}`. -/
def emptyEBMLHeader : EBMLHeaderRec := ⟨0, 0, 0, 0, [], 0, 0⟩

/-- The `switch childElement.ID` body of `ReadEBMLHeader`. -/
def updateEBMLHeaderField (h : EBMLHeaderRec) (el : EBMLElement) : EBMLHeaderRec :=
  if el.idv = IDEBMLVersion then { h with version := el.readUInt }
  else if el.idv = IDEBMLReadVersion then { h with readVersion := el.readUInt }
  else if el.idv = IDEBMLMaxIDLength then { h with maxIDLength := el.readUInt }
  else if el.idv = IDEBMLMaxSizeLength then { h with maxSizeLength := el.readUInt }
  else if el.idv = IDEBMLDocType then { h with docType := el.readString }
  else if el.idv = IDEBMLDocTypeVersion then { h with docTypeVersion := el.readUInt }
  else if el.idv = IDEBMLDocTypeReadVersion then { h with docTypeReadVersion := el.readUInt }
  else h

/-- The child loop of `ReadEBMLHeader`: `for childReader.pos < int64(len(element.Data))`.
The `errReadElement == io.EOF` break compares against the bare `io.EOF` value;
`ReadElement` always wraps its errors, so that branch never fires (it is kept
for faithfulness). -/
def readEBMLHeaderLoop : Nat → Nat → Reader → EBMLHeaderRec → Except GoErr EBMLHeaderRec
  | fuel, bound, r, h =>
    if r.pos < bound then
      match fuel with
      | 0 => .error .fuelOut
      | fuel' + 1 =>
        match readElement r with
        | .error e => if e = .eof then .ok h else .error (.wrapped e)
        | .ok (child, r1) => readEBMLHeaderLoop fuel' bound r1 (updateEBMLHeaderField h child)
    else .ok h

/-- `EBMLReader.ReadEBMLHeader`: one element that must carry `IDEBMLHeader`,
then the child walk over its payload. -/
def readEBMLHeader (fuel : Nat) (r : Reader) : Except GoErr (EBMLHeaderRec × Reader) :=
  match readElement r with
  | .error e => .error (.wrapped e)
  | .ok (element, r1) =>
    if element.idv ≠ IDEBMLHeader then .error (.unexpectedElement element.idv)
    else
      match readEBMLHeaderLoop fuel element.data.length ⟨element.data, 0⟩ emptyEBMLHeader with
      | .error e => .error e
      | .ok h => .ok (h, r1)

/-- The bytes of the Go string literal "matroska". -/
def strMatroska : List Nat := [0x6D, 0x61, 0x74, 0x72, 0x6F, 0x73, 0x6B, 0x61]

/-- The bytes of the Go string literal "webm". -/
def strWebm : List Nat := [0x77, 0x65, 0x62, 0x6D]

/-- `MatroskaParser.parseHeader` from `parser.go`: read the EBML header and
reject any document whose doc type is neither "matroska" nor "webm". -/
def parseHeader (fuel : Nat) (r : Reader) : Except GoErr (EBMLHeaderRec × Reader) :=
  match readEBMLHeader fuel r with
  | .error e => .error e
  | .ok (header, r1) =>
    if header.docType ≠ strMatroska ∧ header.docType ≠ strWebm then
      .error (.unsupportedDocType header.docType)
    else .ok (header, r1)

/-- `MatroskaParser.parseVInt` from `parser.go`: the in-buffer VINT reader used
by the block decoders; returns `(value, bytesConsumed)` with `(0, 0)` on any
failure. -/
def parseVInt (data : List Nat) : Nat × Nat :=
  match data with
  | [] => (0, 0)
  | firstByte :: _ =>
    if firstByte = 0 then (0, 0)
    else
      match vintLengthMask firstByte with
      | none => (0, 0)
      | some (length, mask) =>
        if data.length < length then (0, 0)
        else
          (((data.take length).drop 1).foldl
            (fun result b => ((result <<< 8) % 2 ^ 64) ||| b)
            (firstByte &&& (mask - 1)), length)

/-- `Packet` as documented in the repository README and used by `parser.go`
(`Track uint8`, `StartTime`/`EndTime`/`FilePos uint64`, `Data []byte`,
`Flags uint32`); its defining source file is not among the sources. -/
structure Packet where
  track : Nat
  startTime : Nat
  endTime : Nat
  filePos : Nat
  data : List Nat
  flags : Nat
  deriving Repr, DecidableEq

/-- Modelled from the spec: `KF` is the keyframe bit of the packet flag bitset
("flag bitset (keyframe, etc.)"; "flags include keyframe bit if set").  Its
defining source file is not among the sources; it is modelled as a `uint32`
bit disjoint from the raw SimpleBlock flags byte that `parseSimpleBlock` also
stores into the bitset, so that testing the bit identifies keyframes. -/
def KF : Nat := 2 ^ 31

/-- Follows the spec's words: "start/end time (milliseconds, derived from
cluster timestamp + block delta, scaled)" with the glossary's
"Timecode/Timestamp scale: nanoseconds-per-tick conversion factor" — i.e.
ticks are scaled to milliseconds by multiplying with the scale (ns per tick)
and dividing by 10^6 ns per ms.  This definition renders the claims' phrase
"scaled to milliseconds by the document's timecode scale"; it is *not* part of
the source translation. -/
def specScaledMs (ticks scale : Nat) : Nat := ticks * scale / 1000000

/-- `int16(b0)<<8 | int16(b1)` of `parser.go`: the signed big-endian 16-bit
timestamp delta, with the `int16` wrap-around explicit. -/
def int16FromBytes (b0 b1 : Nat) : Int := toSigned 16 (((b0 <<< 8) ||| b1) % 2 ^ 16)

/-- `mp.clusterTimestamp + uint64(timestamp)`: sign-extend the 16-bit delta to
`uint64` and add with `uint64` wrap-around. -/
def addDeltaU64 (ts : Nat) (delta : Int) : Nat := (((ts : Int) + delta) % (2 ^ 64 : Int)).toNat

/-- Go `uint64` subtraction `a - b`: wrap-around modulo `2^64`. -/
def subU64 (a b : Nat) : Nat := (a % 2 ^ 64 + (2 ^ 64 - b % 2 ^ 64)) % 2 ^ 64

/-- One Xiph lace-size entry of the heuristic in `parseSimpleBlock`: the inner
loop consumes the run of `0xFF` continuation bytes, then one terminator byte if
any byte remains. -/
def xiphSkipEntry : List Nat → Nat
  | [] => 0
  | b :: rest => if b = 0xFF then 1 + xiphSkipEntry rest else 1

/-- The outer Xiph loop: `frameCount - 1` size entries, each advancing by
`xiphSkipEntry` over the remaining bytes (a spent region contributes 0, like
the source's `break` on `totalSizeBytes >= len(frameData)`). -/
def xiphTotalSizeBytes : Nat → List Nat → Nat
  | 0, _ => 0
  | n + 1, l => xiphSkipEntry l + xiphTotalSizeBytes n (l.drop (xiphSkipEntry l))

/-- The lacing block of `parseSimpleBlock` (`if lacingType != 0 { ... }`):
given the flags byte and the bytes after the flags byte, produce the packet
body.  Fixed-size lacing (`0x02`) keeps the first of `frameCount` equal
frames; EBML lacing (`0x04`) deliberately keeps everything; Xiph lacing
(`0x06`) skips the heuristic size entries. -/
def extractFrameData (flags : Nat) (frameData0 : List Nat) : Except GoErr (List Nat) :=
  let lacingType := flags &&& 0x06
  if lacingType ≠ 0 then
    match frameData0 with
    | [] => .error .lacedBlockTooShort
    | countByte :: frameData =>
      let frameCount := countByte + 1
      if lacingType = 0x02 then
        if frameCount > 1 then .ok (frameData.take (frameData.length / frameCount))
        else .ok frameData
      else if lacingType = 0x04 then .ok frameData
      else if lacingType = 0x06 then
        if frameCount > 1 then
          let totalSizeBytes := xiphTotalSizeBytes (frameCount - 1) frameData
          if totalSizeBytes < frameData.length then .ok (frameData.drop totalSizeBytes)
          else .ok frameData
        else .ok frameData
      else .ok frameData
  else .ok frameData0

/-- The body of `MatroskaParser.parseSimpleBlock` after the payload has been
read into `data`: track-number VINT, signed 16-bit delta, flags byte, lacing,
and packet construction (`Track: uint8(trackNum)`, start = end =
`clusterTimestamp + uint64(timestamp)`, flags byte stored in the bitset and
`KF` or-ed in exactly when flags bit 7 is set). -/
def parseSimpleBlockData (data : List Nat) (clusterTimestamp filePos : Nat) :
    Except GoErr Packet :=
  if data.length < 4 then .error .blockTooShort
  else
    let tb := parseVInt data
    if tb.2 = 0 then .error .invalidTrackNumber
    else if data.length < tb.2 + 2 then .error .blockTooShortTimestamp
    else
      let timestamp := int16FromBytes (data.getD tb.2 0) (data.getD (tb.2 + 1) 0)
      if data.length < tb.2 + 3 then .error .blockTooShortFlags
      else
        let flags := data.getD (tb.2 + 2) 0
        match extractFrameData flags (data.drop (tb.2 + 3)) with
        | .error e => .error e
        | .ok frameData =>
          .ok { track := tb.1 % 2 ^ 8,
                startTime := addDeltaU64 clusterTimestamp timestamp,
                endTime := addDeltaU64 clusterTimestamp timestamp,
                filePos := filePos,
                data := frameData,
                flags := flags ||| (if flags &&& 0x80 ≠ 0 then KF else 0) }

/-- `MatroskaParser.parseSimpleBlock`: read `size` bytes with a direct
`io.ReadFull(mp.reader.r, data)` — which consumes the underlying stream
(`r` advances) but does *not* touch the tracked `EBMLReader.pos` — and decode
them.  `FilePos: uint64(mp.reader.Position()) - size` therefore uses the
tracked position `epos` as it stood on entry (just past the element header),
with `uint64` wrap-around. -/
def parseSimpleBlock (size clusterTimestamp : Nat) (r : Reader) (epos : Nat) :
    Except GoErr (Packet × Reader) :=
  match readFull size r with
  | .error e => .error e
  | .ok (data, r1) =>
    match parseSimpleBlockData data clusterTimestamp (subU64 epos size) with
    | .error e => .error e
    | .ok p => .ok (p, r1)

/-- The `case IDBlock` body of `parseBlockGroup`: like a SimpleBlock but the
flags byte is only skipped (`frameData := blockData[trackBytes+3:]`), and the
packet is marked `KF` unconditionally.  The source indexes
`blockData[trackBytes]`, `blockData[trackBytes+1]` and slices at
`trackBytes+3` without a bound check beyond `len >= 4`; inputs that would make
Go panic are modelled by `GoErr.panicked`. -/
def parseBlockData (blockData : List Nat) (clusterTimestamp filePos : Nat) :
    Except GoErr Packet :=
  if blockData.length < 4 then .error .blockTooShort
  else
    let tb := parseVInt blockData
    if tb.2 = 0 then .error .invalidTrackNumber
    else if blockData.length < tb.2 + 3 then .error .panicked
    else
      let timestamp := int16FromBytes (blockData.getD tb.2 0) (blockData.getD (tb.2 + 1) 0)
      .ok { track := tb.1 % 2 ^ 8,
            startTime := addDeltaU64 clusterTimestamp timestamp,
            endTime := addDeltaU64 clusterTimestamp timestamp,
            filePos := filePos,
            data := blockData.drop (tb.2 + 3),
            flags := KF }

/-- The child loop of `parseBlockGroup`: walk the elements of the BlockGroup
payload, remembering the last parsed `Block` packet and the last `0x9B`
(BlockDuration) value. -/
def parseBlockGroupLoop :
    Nat → Nat → Nat → Reader → Option Packet → Nat → Except GoErr (Option Packet × Nat)
  | fuel, clusterTimestamp, filePos, r, packet, duration =>
    if r.pos < r.data.length then
      match fuel with
      | 0 => .error .fuelOut
      | fuel' + 1 =>
        match readElement r with
        | .error e => if e = .eof then .ok (packet, duration) else .error e
        | .ok (element, r1) =>
          if element.idv = IDBlock then
            match parseBlockData element.data clusterTimestamp filePos with
            | .error e => .error e
            | .ok p => parseBlockGroupLoop fuel' clusterTimestamp filePos r1 (some p) duration
          else if element.idv = 0x9B then
            parseBlockGroupLoop fuel' clusterTimestamp filePos r1 packet element.readUInt
          else parseBlockGroupLoop fuel' clusterTimestamp filePos r1 packet duration
    else .ok (packet, duration)

/-- The body of `MatroskaParser.parseBlockGroup` after the payload has been
read: walk the children, then apply `BlockDuration` to the packet's end time
when a packet was found and the duration is positive.  A BlockGroup without a
`Block` child yields `(nil, nil)` — modelled as `.ok none`. -/
def parseBlockGroupData (fuel : Nat) (data : List Nat) (clusterTimestamp filePos : Nat) :
    Except GoErr (Option Packet) :=
  match parseBlockGroupLoop fuel clusterTimestamp filePos ⟨data, 0⟩ none 0 with
  | .error e => .error e
  | .ok (packet, duration) =>
    .ok (match packet with
         | some p =>
           if duration > 0 then some { p with endTime := (p.startTime + duration) % 2 ^ 64 }
           else some p
         | none => none)

/-- `MatroskaParser.parseBlockGroup`: read `size` bytes with a direct
`io.ReadFull(mp.reader.r, data)` (underlying stream consumed, tracked
`EBMLReader.pos` untouched) and decode them; as in `parseSimpleBlock`,
`FilePos` is the tracked position `epos` at entry minus `size`, wrapped
modulo `2^64`. -/
def parseBlockGroup (fuel size clusterTimestamp : Nat) (r : Reader) (epos : Nat) :
    Except GoErr (Option Packet × Reader) :=
  match readFull size r with
  | .error e => .error e
  | .ok (data, r1) =>
    match parseBlockGroupData fuel data clusterTimestamp (subU64 epos size) with
    | .error e => .error e
    | .ok op => .ok (op, r1)

/-- `MatroskaParser.ReadPacket`: the pull loop.  A Cluster header resets the
cluster timestamp to 0 and continues *inside* the cluster payload (the header
variant consumes only ID and size); a Timestamp child updates the cluster
timestamp; SimpleBlock and BlockGroup return; anything else is skipped via
`mp.reader.Seek`.  `epos` models the tracked `EBMLReader.pos` that backs
`Position()`: header reads advance it byte-for-byte with the stream, the
`Seek` of the default branch resynchronises it to the true stream position,
and the direct `io.ReadFull` of the Timestamp branch (like those inside the
block parsers) leaves it behind.  The result carries the packet option
(`nil, nil` from a packet-less BlockGroup is `.ok none`), the reader, the
tracked position and the cluster-timestamp state. -/
def readPacket : Nat → Reader → Nat → Nat → Except GoErr (Option Packet × Reader × Nat × Nat)
  | fuel, r, epos, clusterTimestamp =>
    match fuel with
    | 0 => .error .fuelOut
    | fuel' + 1 =>
      match readElementHeader r with
      | .error e => .error e
      | .ok (idv, size, r1) =>
        if idv = IDCluster then readPacket fuel' r1 (epos + (r1.pos - r.pos)) 0
        else if idv = IDSimpleBlock then
          match parseSimpleBlock size clusterTimestamp r1 (epos + (r1.pos - r.pos)) with
          | .error e => .error e
          | .ok (p, r2) => .ok (some p, r2, epos + (r1.pos - r.pos), clusterTimestamp)
        else if idv = IDBlockGroup then
          match parseBlockGroup fuel' size clusterTimestamp r1 (epos + (r1.pos - r.pos)) with
          | .error e => .error e
          | .ok (op, r2) => .ok (op, r2, epos + (r1.pos - r.pos), clusterTimestamp)
        else if idv = IDTimestamp then
          match readFull size r1 with
          | .error e => .error e
          | .ok (tdata, r2) =>
            readPacket fuel' r2 (epos + (r1.pos - r.pos))
              (EBMLElement.readUInt ⟨idv, size, tdata⟩)
        else readPacket fuel' (seekCurrent size r1) (r1.pos + size) clusterTimestamp

/-- The `Video` sub-descriptor of `TrackInfo` (fields used by
`parseVideoTrack`: `uint32` dimensions, interlaced flag); the defining source
file is not among the sources, the layout follows the parser's uses. -/
structure VideoInfo where
  pixelWidth : Nat
  pixelHeight : Nat
  displayWidth : Nat
  displayHeight : Nat
  interlaced : Bool
  deriving Repr, DecidableEq

/-- The Go zero value of `VideoInfo`. -/
def VideoInfo.init : VideoInfo := ⟨0, 0, 0, 0, false⟩

/-- The `Audio` sub-descriptor of `TrackInfo` (fields used by
`parseAudioTrack`). -/
structure AudioInfo where
  samplingFreq : GoFloat
  outputSamplingFreq : GoFloat
  channels : Nat
  bitDepth : Nat
  deriving Repr, DecidableEq

/-- The Go zero value of `AudioInfo`. -/
def AudioInfo.init : AudioInfo := ⟨.zero, .zero, 0, 0⟩

/-- `TrackInfo` as used by `parseTrackEntry` (`Number uint8`, `Type uint8`,
byte-string fields, nested video/audio descriptors, and the defaulted flags);
the defining source file is not among the sources, the layout follows the
parser's uses and the repository README. -/
structure TrackInfo where
  number : Nat
  uid : Nat
  trackType : Nat
  name : List Nat
  language : List Nat
  codecID : List Nat
  codecPrivate : List Nat
  video : VideoInfo
  audio : AudioInfo
  enabled : Bool
  isDefault : Bool
  lacing : Bool
  timecodeScale : GoFloat
  deriving Repr, DecidableEq

/-- The initial track value of `parseTrackEntry`: `Enabled: true, Default:
true, Lacing: true, TimecodeScale: 1.0, Language: "eng"`, everything else the
Go zero value. -/
def TrackInfo.init : TrackInfo :=
  { number := 0, uid := 0, trackType := 0, name := [], language := [0x65, 0x6E, 0x67],
    codecID := [], codecPrivate := [], video := VideoInfo.init, audio := AudioInfo.init,
    enabled := true, isDefault := true, lacing := true, timecodeScale := .lit 1 1 }

/-- The `switch` body of `parseVideoTrack`. -/
def updateVideoField (t : TrackInfo) (el : EBMLElement) : TrackInfo :=
  if el.idv = IDPixelWidth then { t with video.pixelWidth := el.readUInt % 2 ^ 32 }
  else if el.idv = IDPixelHeight then { t with video.pixelHeight := el.readUInt % 2 ^ 32 }
  else if el.idv = IDDisplayWidth then { t with video.displayWidth := el.readUInt % 2 ^ 32 }
  else if el.idv = IDDisplayHeight then { t with video.displayHeight := el.readUInt % 2 ^ 32 }
  else if el.idv = IDFlagInterlaced then { t with video.interlaced := el.readUInt ≠ 0 }
  else t

/-- The child loop of `parseVideoTrack`. -/
def parseVideoTrackLoop : Nat → Nat → Reader → TrackInfo → Except GoErr TrackInfo
  | fuel, bound, r, t =>
    if r.pos < bound then
      match fuel with
      | 0 => .error .fuelOut
      | fuel' + 1 =>
        match readElement r with
        | .error e => if e = .eof then .ok t else .error e
        | .ok (element, r1) => parseVideoTrackLoop fuel' bound r1 (updateVideoField t element)
    else .ok t

/-- `MatroskaParser.parseVideoTrack`: walk the Video payload, then default the
display dimensions to the pixel dimensions when they are zero. -/
def parseVideoTrack (fuel : Nat) (data : List Nat) (t : TrackInfo) : Except GoErr TrackInfo :=
  match parseVideoTrackLoop fuel data.length ⟨data, 0⟩ t with
  | .error e => .error e
  | .ok t1 =>
    let t2 := if t1.video.displayWidth = 0 then { t1 with video.displayWidth := t1.video.pixelWidth } else t1
    .ok (if t2.video.displayHeight = 0 then { t2 with video.displayHeight := t2.video.pixelHeight } else t2)

/-- The `switch` body of `parseAudioTrack`. -/
def updateAudioField (t : TrackInfo) (el : EBMLElement) : TrackInfo :=
  if el.idv = IDSamplingFrequency then { t with audio.samplingFreq := el.readFloat }
  else if el.idv = IDOutputSamplingFrequency then { t with audio.outputSamplingFreq := el.readFloat }
  else if el.idv = IDChannels then { t with audio.channels := el.readUInt % 2 ^ 8 }
  else if el.idv = IDBitDepth then { t with audio.bitDepth := el.readUInt % 2 ^ 8 }
  else t

/-- The child loop of `parseAudioTrack`. -/
def parseAudioTrackLoop : Nat → Nat → Reader → TrackInfo → Except GoErr TrackInfo
  | fuel, bound, r, t =>
    if r.pos < bound then
      match fuel with
      | 0 => .error .fuelOut
      | fuel' + 1 =>
        match readElement r with
        | .error e => if e = .eof then .ok t else .error e
        | .ok (element, r1) => parseAudioTrackLoop fuel' bound r1 (updateAudioField t element)
    else .ok t

/-- `MatroskaParser.parseAudioTrack`: set the defaults (1 channel, 8000.0 Hz),
walk the Audio payload, then default the output sampling frequency to the
sampling frequency when it is zero. -/
def parseAudioTrack (fuel : Nat) (data : List Nat) (t : TrackInfo) : Except GoErr TrackInfo :=
  let t0 := { t with audio.channels := 1, audio.samplingFreq := GoFloat.lit 8000 1 }
  match parseAudioTrackLoop fuel data.length ⟨data, 0⟩ t0 with
  | .error e => .error e
  | .ok t1 =>
    .ok (if t1.audio.outputSamplingFreq.isZero then
           { t1 with audio.outputSamplingFreq := t1.audio.samplingFreq }
         else t1)

/-- The child loop of `parseTrackEntry` (the `switch element.ID` dispatch). -/
def parseTrackEntryLoop : Nat → Nat → Reader → TrackInfo → Except GoErr TrackInfo
  | fuel, bound, r, t =>
    if r.pos < bound then
      match fuel with
      | 0 => .error .fuelOut
      | fuel' + 1 =>
        match readElement r with
        | .error e => if e = .eof then .ok t else .error e
        | .ok (element, r1) =>
          if element.idv = IDTrackNum then
            parseTrackEntryLoop fuel' bound r1 { t with number := element.readUInt % 2 ^ 8 }
          else if element.idv = IDTrackUID then
            parseTrackEntryLoop fuel' bound r1 { t with uid := element.readUInt }
          else if element.idv = IDTrackType then
            parseTrackEntryLoop fuel' bound r1 { t with trackType := element.readUInt % 2 ^ 8 }
          else if element.idv = IDTrackName then
            parseTrackEntryLoop fuel' bound r1 { t with name := element.readString }
          else if element.idv = IDLanguage then
            parseTrackEntryLoop fuel' bound r1
              (if element.data.length ≥ 3 then { t with language := element.data.take 3 } else t)
          else if element.idv = IDCodecID then
            parseTrackEntryLoop fuel' bound r1 { t with codecID := element.readString }
          else if element.idv = IDCodecPriv then
            parseTrackEntryLoop fuel' bound r1 { t with codecPrivate := element.readBytes }
          else if element.idv = IDVideo then
            match parseVideoTrack fuel' element.data t with
            | .error e => .error e
            | .ok t1 => parseTrackEntryLoop fuel' bound r1 t1
          else if element.idv = IDAudio then
            match parseAudioTrack fuel' element.data t with
            | .error e => .error e
            | .ok t1 => parseTrackEntryLoop fuel' bound r1 t1
          else parseTrackEntryLoop fuel' bound r1 t
    else .ok t

/-- `MatroskaParser.parseTrackEntry`: defaults, then the child walk over the
TrackEntry payload. -/
def parseTrackEntry (fuel : Nat) (data : List Nat) : Except GoErr TrackInfo :=
  parseTrackEntryLoop fuel data.length ⟨data, 0⟩ TrackInfo.init

/-- The TrackEntry loop of `parseTracks`: collect the parsed entries in file
order (non-TrackEntry children are read and ignored). Errors from
`parseTrackEntry` are wrapped. -/
def parseTracksLoop : Nat → Nat → Reader → List TrackInfo → Except GoErr (List TrackInfo)
  | fuel, bound, r, tracks =>
    if r.pos < bound then
      match fuel with
      | 0 => .error .fuelOut
      | fuel' + 1 =>
        match readElement r with
        | .error e => if e = .eof then .ok tracks else .error e
        | .ok (element, r1) =>
          if element.idv = IDTrackEntry then
            match parseTrackEntry fuel' element.data with
            | .error e => .error (.wrapped e)
            | .ok t => parseTracksLoop fuel' bound r1 (tracks ++ [t])
          else parseTracksLoop fuel' bound r1 tracks
    else .ok tracks

/-- The part of `MatroskaParser.parseTracks` before the sort: read `size`
bytes with a direct `io.ReadFull(mp.reader.r, data)` — consuming the
underlying stream while leaving the outer reader's tracked `EBMLReader.pos`
(the caller's `epos`) untouched — walk the TrackEntry children of the
in-memory payload appending to the parser's track list, and return the
accumulated list in file order. -/
def parseTracksData (fuel size : Nat) (r : Reader) (tracks0 : List TrackInfo) :
    Except GoErr (List TrackInfo × Reader) :=
  match readFull size r with
  | .error e => .error e
  | .ok (data, r1) =>
    match parseTracksLoop fuel size ⟨data, 0⟩ tracks0 with
    | .error e => .error e
    | .ok tracks => .ok (tracks, r1)

/-- The comparator handed to `sort.Slice` in `parseTracks`:
`mp.tracks[i].Number < mp.tracks[j].Number`, as the resulting order relation
(`¬ (b.number < a.number)` between ordered neighbours, i.e. `≤`). -/
def trackNumberLE (a b : TrackInfo) : Prop := a.number ≤ b.number

/-- The contract of Go's `sort.Slice` with the comparator of `parseTracks`:
the output is a permutation of the input, ordered by track number.
`sort.Slice` is documented as *not* guaranteed to be stable, so nothing more
may be assumed about the order of entries with equal track numbers. -/
def sortSliceContract (input out : List TrackInfo) : Prop :=
  out.Perm input ∧ out.Sorted trackNumberLE

/-- Insertion into a list sorted by track number, placing the new entry before
any entry of equal number: the stable sort used as one concrete
contract-satisfying implementation of `sort.Slice` (needed to make the
embedding of `parseTracks` executable; `sort.Slice` itself fixes only the
contract). -/
def insertByNumber (x : TrackInfo) : List TrackInfo → List TrackInfo
  | [] => [x]
  | y :: rest => if y.number < x.number then y :: insertByNumber x rest else x :: y :: rest

/-- Stable insertion sort by track number. -/
def stableSortByNumber : List TrackInfo → List TrackInfo
  | [] => []
  | x :: rest => insertByNumber x (stableSortByNumber rest)

/-- `MatroskaParser.parseTracks`: the TrackEntry walk followed by
`sort.Slice(mp.tracks, ...)`, the latter modelled by a contract-satisfying
sort (the contract itself is `sortSliceContract`). -/
def parseTracks (fuel size : Nat) (r : Reader) (tracks0 : List TrackInfo) :
    Except GoErr (List TrackInfo × Reader) :=
  match parseTracksData fuel size r tracks0 with
  | .error e => .error e
  | .ok (tracks, r1) => .ok (stableSortByNumber tracks, r1)

/-- `SegmentInfo` as used by `parseSegmentInfo` (UID fields are 16-byte
arrays, modelled as byte lists); the defining source file is not among the
sources, the layout follows the parser's uses. -/
structure SegmentInfoRec where
  uid : List Nat
  filename : List Nat
  prevUID : List Nat
  prevFilename : List Nat
  nextUID : List Nat
  nextFilename : List Nat
  timecodeScale : Nat
  duration : Nat
  dateUTC : Int
  dateUTCValid : Bool
  title : List Nat
  muxingApp : List Nat
  writingApp : List Nat
  deriving Repr, DecidableEq

/-- `&SegmentInfo{TimecodeScale: 1000000}`: the initial value with the default
timecode scale. -/
def SegmentInfoRec.init : SegmentInfoRec :=
  { uid := List.replicate 16 0, filename := [], prevUID := List.replicate 16 0,
    prevFilename := [], nextUID := List.replicate 16 0, nextFilename := [],
    timecodeScale := 1000000, duration := 0, dateUTC := 0, dateUTCValid := false,
    title := [], muxingApp := [], writingApp := [] }

/-- Big-endian value of a byte list. -/
def beVal (l : List Nat) : Nat := l.foldl (fun a b => a * 256 + b) 0

/-- The `k` big-endian bytes of `v % 256^k`. -/
def natToBeBytes : Nat → Nat → List Nat
  | 0, _ => []
  | k + 1, v => (v / 256 ^ k) % 256 :: natToBeBytes k v

/-- The canonical `len`-byte VINT encoding of a value `v < 2^(7*len)`:
marker bit plus big-endian data bits. -/
def encodeVIntV (len v : Nat) : List Nat := natToBeBytes len (2 ^ (7 * len) + v)

theorem beVal_foldl_init (l : List Nat) (a : Nat) :
    l.foldl (fun x b => x * 256 + b) a = a * 256 ^ l.length + beVal l := by
  induction l generalizing a with
  | nil => simp [beVal]
  | cons b t ih =>
    simp only [List.foldl_cons, List.length_cons, beVal, Nat.zero_mul, Nat.zero_add]
    rw [ih (a * 256 + b), ih b]
    ring

theorem beVal_cons (b : Nat) (l : List Nat) :
    beVal (b :: l) = b * 256 ^ l.length + beVal l := by
  simp only [beVal, List.foldl_cons, Nat.zero_mul, Nat.zero_add]
  exact beVal_foldl_init l b

@[simp] theorem length_natToBeBytes (k v : Nat) : (natToBeBytes k v).length = k := by
  induction k generalizing v with
  | zero => rfl
  | succ k ih => simp [natToBeBytes, ih]

theorem natToBeBytes_lt (k v : Nat) : ∀ b ∈ natToBeBytes k v, b < 256 := by
  induction k generalizing v with
  | zero => simp [natToBeBytes]
  | succ k ih =>
    intro b hb
    rcases List.mem_cons.mp hb with h | h
    · subst h
      exact Nat.mod_lt _ (by norm_num)
    · exact ih v b h

theorem natToBeBytes_head_lt (k v : Nat) : v / 256 ^ k % 256 < 256 :=
  Nat.mod_lt _ (by norm_num)

theorem beVal_natToBeBytes (k v : Nat) : beVal (natToBeBytes k v) = v % 256 ^ k := by
  induction k generalizing v with
  | zero => simp [natToBeBytes, beVal, Nat.mod_one]
  | succ k ih =>
    rw [natToBeBytes, beVal_cons, length_natToBeBytes, ih]
    have h256 : (256 : Nat) ^ (k + 1) = 256 ^ k * 256 := by ring
    rw [h256, Nat.mod_mul]
    ring

theorem natToBeBytes_add_mul (k c v : Nat) :
    natToBeBytes k (c * 256 ^ k + v) = natToBeBytes k v := by
  induction k generalizing c v with
  | zero => rfl
  | succ k ih =>
    have hc : c * 256 ^ (k + 1) + v = (c * 256) * 256 ^ k + v := by ring
    rw [natToBeBytes, natToBeBytes, hc]
    have hdiv : ((c * 256) * 256 ^ k + v) / 256 ^ k = c * 256 + v / 256 ^ k := by
      rw [Nat.add_comm, Nat.add_mul_div_right _ _ (by positivity), Nat.add_comm]
    have hmod : (c * 256 + v / 256 ^ k) % 256 = v / 256 ^ k % 256 := by
      rw [Nat.mul_comm c 256, Nat.mul_add_mod]
    rw [hdiv, hmod, ih]

theorem encodeVIntV_cons (len v : Nat) (h1 : 1 ≤ len) (h8 : len ≤ 8)
    (hv : v < 2 ^ (7 * len)) :
    encodeVIntV len v =
      (2 ^ (8 - len) + v / 2 ^ (8 * (len - 1))) :: natToBeBytes (len - 1) v := by
  obtain ⟨k, rfl⟩ : ∃ k, len = k + 1 := ⟨len - 1, by omega⟩
  have hk : k ≤ 7 := by omega
  have hpow : (2 : Nat) ^ (7 * (k + 1)) = 2 ^ (7 - k) * 256 ^ k := by
    rw [show (256 : Nat) = 2 ^ 8 from rfl, ← Nat.pow_mul, ← Nat.pow_add]
    congr 1
    omega
  have hhead : (2 ^ (7 * (k + 1)) + v) / 256 ^ k = 2 ^ (7 - k) + v / 256 ^ k := by
    rw [hpow, Nat.add_comm, Nat.add_mul_div_right _ _ (by positivity), Nat.add_comm]
  have hbound : 2 ^ (7 - k) + v / 256 ^ k < 256 := by
    have h1 : (2 : Nat) ^ (7 - k) ≤ 2 ^ 7 := Nat.pow_le_pow_right (by norm_num) (by omega)
    have h2 : v / 256 ^ k < 2 ^ (7 - k) := by
      apply Nat.div_lt_of_lt_mul
      calc v < 2 ^ (7 * (k + 1)) := hv
        _ = 2 ^ (7 - k) * 256 ^ k := hpow
        _ = 256 ^ k * 2 ^ (7 - k) := by ring
    have h3 : (2 : Nat) ^ (7 - k) ≥ 1 := Nat.one_le_two_pow
    omega
  have htail : natToBeBytes k (2 ^ (7 * (k + 1)) + v) = natToBeBytes k v := by
    rw [hpow]
    exact natToBeBytes_add_mul k (2 ^ (7 - k)) v
  rw [encodeVIntV, natToBeBytes, hhead, Nat.mod_eq_of_lt hbound, htail]
  have hidx : 8 - (k + 1) = 7 - k := by omega
  have h256 : (256 : Nat) ^ k = 2 ^ (8 * k) := by
    rw [show (256 : Nat) = 2 ^ 8 from rfl, ← Nat.pow_mul]
  simp only [Nat.add_sub_cancel, hidx, h256]

/-! ## Cursor lemmas -/

theorem drop_cons_get {data l : List Nat} {pos b : Nat} (h : data.drop pos = b :: l) :
    data[pos]? = some b ∧ data.drop (pos + 1) = l := by
  constructor
  · have := List.getElem?_drop data pos 0
    rw [h] at this
    simpa using this.symm
  · have := List.drop_drop 1 pos data
    rw [h] at this
    simpa using this.symm

theorem drop_append_of_drop {data rest : List Nat} {pos : Nat} (l : List Nat)
    (h : data.drop pos = l ++ rest) : data.drop (pos + l.length) = rest := by
  have := List.drop_drop l.length pos data
  rw [h, List.drop_left] at this
  exact this.symm

theorem readByte_of_drop {data l : List Nat} {pos b : Nat} (h : data.drop pos = b :: l) :
    readByte ⟨data, pos⟩ = .ok (b, ⟨data, pos + 1⟩) := by
  rcases drop_cons_get h with ⟨h1, _⟩
  simp [readByte, h1]

theorem readFull_spec (payload rest data : List Nat) (pos : Nat)
    (hd : data.drop pos = payload ++ rest) :
    readFull payload.length ⟨data, pos⟩ = .ok (payload, ⟨data, pos + payload.length⟩) := by
  have hlen : data.length - pos = payload.length + rest.length := by
    have := congrArg List.length hd
    simpa using this
  match payload with
  | [] => simp [readFull]
  | b :: t =>
    have hn : (b :: t).length ≠ 0 := by simp
    have hle : pos + (b :: t).length ≤ data.length := by
      simp only [List.length_cons] at hlen ⊢
      omega
    rw [readFull, if_neg hn, if_pos hle]
    rw [hd, List.take_left]

/-! ## VINT decode of canonical encodings -/

theorem vintLengthMask_marker (len hi : Nat) (h1 : 1 ≤ len) (h8 : len ≤ 8)
    (hhi : hi < 2 ^ (8 - len)) :
    vintLengthMask (2 ^ (8 - len) + hi) = some (len, 2 ^ (8 - len)) := by
  interval_cases len <;> (revert hhi; revert hi; decide)

theorem land_mask_strip (len hi : Nat) (h1 : 1 ≤ len) (h8 : len ≤ 8)
    (hhi : hi < 2 ^ (8 - len)) :
    (2 ^ (8 - len) + hi) &&& (2 ^ (8 - len) - 1) = hi := by
  interval_cases len <;> (revert hhi; revert hi; decide)

theorem readVIntRest_spec (bs : List Nat) (rest data : List Nat) (pos acc n : Nat)
    (hn : bs.length = n) (hd : data.drop pos = bs ++ rest) (hb : ∀ b ∈ bs, b < 256)
    (h7 : n ≤ 7) (hacc : acc < 2 ^ (8 * (8 - n))) :
    readVIntRest n acc ⟨data, pos⟩ =
      .ok (acc * 256 ^ n + beVal bs, ⟨data, pos + n⟩) := by
  subst hn
  induction bs generalizing pos acc rest with
  | nil => simp [readVIntRest, beVal]
  | cons b t ih =>
    simp only [List.cons_append] at hd
    rcases drop_cons_get hd with ⟨_, hdrop⟩
    have hblt : b < 256 := hb b (List.mem_cons_self b t)
    have hlen' : (b :: t).length = t.length + 1 := rfl
    rw [hlen'] at hacc ⊢
    have haccmul : acc * 2 ^ 8 < 2 ^ 64 := by
      have h1 : acc * 2 ^ 8 < 2 ^ (8 * (8 - (t.length + 1))) * 2 ^ 8 :=
        mul_lt_mul_of_pos_right hacc (by norm_num)
      have h2 : (2 : Nat) ^ (8 * (8 - (t.length + 1))) * 2 ^ 8 ≤ 2 ^ 64 := by
        rw [← Nat.pow_add]
        exact Nat.pow_le_pow_right (by norm_num) (by omega)
      omega
    have hacc1 : ((acc <<< 8) % 2 ^ 64) ||| b = acc * 256 + b := by
      rw [Nat.shiftLeft_eq, Nat.mod_eq_of_lt haccmul, Nat.mul_comm acc (2 ^ 8)]
      rw [← Nat.mul_add_lt_is_or hblt acc]
      ring
    have hstep : readVIntRest (t.length + 1) acc ⟨data, pos⟩ =
        readVIntRest t.length (acc * 256 + b) ⟨data, pos + 1⟩ := by
      rw [readVIntRest, readByte_of_drop hd]
      simp only [hacc1]
    have hacc2 : acc * 256 + b < 2 ^ (8 * (8 - t.length)) := by
      have h2 : acc * 256 + b < 2 ^ (8 * (8 - (t.length + 1))) * 256 := by
        have := mul_lt_mul_of_pos_right hacc (show (0 : Nat) < 256 by norm_num)
        omega
      have h3 : (2 : Nat) ^ (8 * (8 - (t.length + 1))) * 256 ≤ 2 ^ (8 * (8 - t.length)) := by
        rw [show (256 : Nat) = 2 ^ 8 from rfl, ← Nat.pow_add]
        exact Nat.pow_le_pow_right (by norm_num) (by omega)
      omega
    rw [hstep, ih rest (pos + 1) (acc * 256 + b) hdrop
          (fun x hx => hb x (List.mem_cons_of_mem b hx)) (by simp at h7; omega) hacc2]
    have hval : (acc * 256 + b) * 256 ^ t.length + beVal t =
        acc * 256 ^ (t.length + 1) + beVal (b :: t) := by
      rw [beVal_cons]
      ring
    have hpos : pos + 1 + t.length = pos + (t.length + 1) := by omega
    rw [hval, hpos]

theorem pow256_eq (k : Nat) : (256 : Nat) ^ k = 2 ^ (8 * k) := by
  rw [show (256 : Nat) = 2 ^ 8 from rfl, ← Nat.pow_mul]

theorem readVInt_encode (keep : Bool) (len v : Nat) (h1 : 1 ≤ len) (h8 : len ≤ 8)
    (hv : v < 2 ^ (7 * len)) (data rest : List Nat) (pos : Nat)
    (hd : data.drop pos = encodeVIntV len v ++ rest) :
    readVInt keep ⟨data, pos⟩ =
      .ok (if keep then 2 ^ (7 * len) + v else v, ⟨data, pos + len⟩) := by
  rw [encodeVIntV_cons len v h1 h8 hv] at hd
  simp only [List.cons_append] at hd
  rcases drop_cons_get hd with ⟨_, hdrop⟩
  have hhi : v / 2 ^ (8 * (len - 1)) < 2 ^ (8 - len) := by
    apply Nat.div_lt_of_lt_mul
    calc v < 2 ^ (7 * len) := hv
      _ = 2 ^ (8 * (len - 1)) * 2 ^ (8 - len) := by
          rw [← Nat.pow_add]
          congr 1
          omega
  have hfb : 2 ^ (8 - len) + v / 2 ^ (8 * (len - 1)) ≠ 0 := by positivity
  have hmarklt : (2 : Nat) ^ (8 - len) ≤ 2 ^ 7 := Nat.pow_le_pow_right (by norm_num) (by omega)
  have hsplitpow : 2 ^ (8 - len) * 2 ^ (8 * (len - 1)) = 2 ^ (7 * len) := by
    rw [← Nat.pow_add]
    congr 1
    omega
  have hvmod : beVal (natToBeBytes (len - 1) v) = v % 2 ^ (8 * (len - 1)) := by
    rw [beVal_natToBeBytes, pow256_eq]
  rw [readVInt, readByte_of_drop hd]
  simp only [if_neg hfb, vintLengthMask_marker len _ h1 h8 hhi]
  cases keep with
  | false =>
    simp only [Bool.false_eq_true, if_false]
    rw [land_mask_strip len _ h1 h8 hhi]
    rw [readVIntRest_spec (natToBeBytes (len - 1) v) rest data (pos + 1) _ (len - 1)
          (length_natToBeBytes _ _) hdrop (natToBeBytes_lt _ _) (by omega)
          (by
            have hle : (2 : Nat) ^ (8 - len) ≤ 2 ^ (8 * (8 - (len - 1))) :=
              Nat.pow_le_pow_right (by norm_num) (by omega)
            omega)]
    have hval : v / 2 ^ (8 * (len - 1)) * 256 ^ (len - 1) +
        beVal (natToBeBytes (len - 1) v) = v := by
      rw [hvmod, pow256_eq, Nat.mul_comm]
      exact Nat.div_add_mod v (2 ^ (8 * (len - 1)))
    have hpos : pos + 1 + (len - 1) = pos + len := by omega
    rw [hval, hpos]
  | true =>
    simp only [if_true]
    rw [readVIntRest_spec (natToBeBytes (len - 1) v) rest data (pos + 1) _ (len - 1)
          (length_natToBeBytes _ _) hdrop (natToBeBytes_lt _ _) (by omega)
          (by
            have h2' : (2 : Nat) ^ (8 - len) + 2 ^ (8 - len) = 2 ^ (8 - len + 1) := by
              rw [Nat.pow_succ]
              ring
            have h3' : (2 : Nat) ^ (8 - len + 1) ≤ 2 ^ (8 * (8 - (len - 1))) :=
              Nat.pow_le_pow_right (by norm_num) (by omega)
            omega)]
    have hval : (2 ^ (8 - len) + v / 2 ^ (8 * (len - 1))) * 256 ^ (len - 1) +
        beVal (natToBeBytes (len - 1) v) = 2 ^ (7 * len) + v := by
      rw [hvmod, pow256_eq, Nat.add_mul, hsplitpow, Nat.add_assoc]
      congr 1
      rw [Nat.mul_comm]
      exact Nat.div_add_mod v (2 ^ (8 * (len - 1)))
    have hpos : pos + 1 + (len - 1) = pos + len := by omega
    rw [hval, hpos]

/-- A well-formed element ID of encoded length `idLen`: the decoded
identifier-mode value of a canonical `idLen`-byte VINT (marker retained). -/
def validID (idLen idVal : Nat) : Prop :=
  1 ≤ idLen ∧ idLen ≤ 8 ∧ 2 ^ (7 * idLen) ≤ idVal ∧ idVal < 2 ^ (7 * idLen + 1)

/-- The byte encoding of one EBML element: ID bytes, canonical size VINT,
payload. -/
def elemBytes (idLen idVal sizeLen : Nat) (payload : List Nat) : List Nat :=
  natToBeBytes idLen idVal ++ encodeVIntV sizeLen payload.length ++ payload

theorem natToBeBytes_validID (idLen idVal : Nat) (h : validID idLen idVal) :
    natToBeBytes idLen idVal = encodeVIntV idLen (idVal - 2 ^ (7 * idLen)) := by
  rw [encodeVIntV, Nat.add_sub_cancel' h.2.2.1]

theorem readVIntID_encode (idLen idVal : Nat) (h : validID idLen idVal)
    (data rest : List Nat) (pos : Nat)
    (hd : data.drop pos = natToBeBytes idLen idVal ++ rest) :
    readVInt true ⟨data, pos⟩ = .ok (idVal, ⟨data, pos + idLen⟩) := by
  obtain ⟨h1, h8, hlo, hhi⟩ := h
  rw [natToBeBytes_validID idLen idVal ⟨h1, h8, hlo, hhi⟩] at hd
  have := readVInt_encode true idLen (idVal - 2 ^ (7 * idLen)) h1 h8
    (by
      have : (2 : Nat) ^ (7 * idLen + 1) = 2 ^ (7 * idLen) + 2 ^ (7 * idLen) := by
        rw [Nat.pow_succ]
        ring
      omega)
    data rest pos hd
  simpa [Nat.add_sub_cancel' hlo] using this

/-- Length of an encoded element. -/
theorem length_elemBytes (idLen idVal sizeLen : Nat) (payload : List Nat) :
    (elemBytes idLen idVal sizeLen payload).length = idLen + sizeLen + payload.length := by
  simp [elemBytes, encodeVIntV]
  omega

theorem readElement_encode (idLen idVal sizeLen : Nat) (payload data rest : List Nat)
    (pos : Nat) (hid : validID idLen idVal) (hs1 : 1 ≤ sizeLen) (hs8 : sizeLen ≤ 8)
    (hplen : payload.length < 2 ^ (7 * sizeLen)) (hsent : payload.length ≠ 2 ^ 56 - 1)
    (hd : data.drop pos = elemBytes idLen idVal sizeLen payload ++ rest) :
    readElement ⟨data, pos⟩ =
      .ok (⟨idVal % 2 ^ 32, payload.length, payload⟩,
           ⟨data, pos + (idLen + sizeLen + payload.length)⟩) := by
  rw [elemBytes, List.append_assoc, List.append_assoc] at hd
  have hid' := readVIntID_encode idLen idVal hid data _ pos hd
  have hd2 : data.drop (pos + idLen) = encodeVIntV sizeLen payload.length ++ (payload ++ rest) := by
    have := drop_append_of_drop (natToBeBytes idLen idVal) hd
    rwa [length_natToBeBytes] at this
  have hsz := readVInt_encode false sizeLen payload.length hs1 hs8 hplen data _ _ hd2
  have hd3 : data.drop (pos + idLen + sizeLen) = payload ++ rest := by
    have := drop_append_of_drop (encodeVIntV sizeLen payload.length) hd2
    rwa [encodeVIntV, length_natToBeBytes] at this
  have hfull := readFull_spec payload rest data (pos + idLen + sizeLen) hd3
  have hpos : pos + (idLen + sizeLen + payload.length) =
      pos + idLen + sizeLen + payload.length := by omega
  rw [readElement, hpos]
  simp only [hid', hsz, Bool.false_eq_true, if_false, if_neg hsent, hfull]

theorem readElementHeader_encode (idLen idVal sizeLen : Nat) (payload data rest : List Nat)
    (pos : Nat) (hid : validID idLen idVal) (hs1 : 1 ≤ sizeLen) (hs8 : sizeLen ≤ 8)
    (hplen : payload.length < 2 ^ (7 * sizeLen))
    (hd : data.drop pos = elemBytes idLen idVal sizeLen payload ++ rest) :
    readElementHeader ⟨data, pos⟩ =
      .ok (idVal % 2 ^ 32, payload.length, ⟨data, pos + idLen + sizeLen⟩) := by
  rw [elemBytes, List.append_assoc, List.append_assoc] at hd
  have hid' := readVIntID_encode idLen idVal hid data _ pos hd
  have hd2 : data.drop (pos + idLen) = encodeVIntV sizeLen payload.length ++ (payload ++ rest) := by
    have := drop_append_of_drop (natToBeBytes idLen idVal) hd
    rwa [length_natToBeBytes] at this
  have hsz := readVInt_encode false sizeLen payload.length hs1 hs8 hplen data _ _ hd2
  rw [readElementHeader]
  simp only [hid', hsz, Bool.false_eq_true, if_false]

theorem beVal_encodeVIntV (len v : Nat) (h1 : 1 ≤ len) (h8 : len ≤ 8)
    (hv : v < 2 ^ (7 * len)) : beVal (encodeVIntV len v) = 2 ^ (7 * len) + v := by
  rw [encodeVIntV, beVal_natToBeBytes, pow256_eq]
  apply Nat.mod_eq_of_lt
  have h2 : (2 : Nat) ^ (7 * len) + 2 ^ (7 * len) = 2 ^ (7 * len + 1) := by
    rw [Nat.pow_succ]
    ring
  have h3 : (2 : Nat) ^ (7 * len + 1) ≤ 2 ^ (8 * len) := by
    apply Nat.pow_le_pow_right (by norm_num)
    omega
  omega

/-! ## Claim theorems -/

/-- **C6.** For every value with a canonical VINT encoding of `len` bytes
(1 ≤ len ≤ 8, value below `2^(7*len)`), decoding the encoding in value mode
(`ReadVInt`) recovers exactly that value, with the marker bits stripped from
the first byte and the remaining bytes accumulated big-endian; decoding the
same bytes in identifier mode (`ReadVIntID`) recovers the value with the raw
first byte unmodified, i.e. the big-endian value of all `len` bytes with the
length marker retained (which equals `2^(7*len) + v`).  Both modes consume
exactly `len` bytes. -/
theorem C6_vint_roundtrip (len v : Nat) (h1 : 1 ≤ len) (h8 : len ≤ 8)
    (hv : v < 2 ^ (7 * len)) (data rest : List Nat) (pos : Nat)
    (hd : data.drop pos = encodeVIntV len v ++ rest) :
    readVInt false ⟨data, pos⟩ = .ok (v, ⟨data, pos + len⟩) ∧
    readVInt true ⟨data, pos⟩ = .ok (beVal (encodeVIntV len v), ⟨data, pos + len⟩) ∧
    beVal (encodeVIntV len v) = 2 ^ (7 * len) + v := by
  refine ⟨?_, ?_, beVal_encodeVIntV len v h1 h8 hv⟩
  · simpa using readVInt_encode false len v h1 h8 hv data rest pos hd
  · rw [beVal_encodeVIntV len v h1 h8 hv]
    simpa using readVInt_encode true len v h1 h8 hv data rest pos hd

/-- Witness for C6 at the concrete two-byte encoding of `0x1011`
(bytes `0x50 0x11`, as in the repository's own test vectors). -/
theorem C6_vint_roundtrip_witness :
    readVInt false ⟨[0x50, 0x11], 0⟩ = .ok (0x1011, ⟨[0x50, 0x11], 2⟩) ∧
    readVInt true ⟨[0x50, 0x11], 0⟩ = .ok (0x5011, ⟨[0x50, 0x11], 2⟩) := by
  have h := C6_vint_roundtrip 2 0x1011 (by norm_num) (by norm_num) (by norm_num)
    [0x50, 0x11] [] 0 (by decide)
  refine ⟨h.1, ?_⟩
  rw [h.2.1]
  decide

/-- **C9.** For every input stream whose next byte is `0x00`, reading a VINT
in either mode fails with `MalformedVInt` ("invalid VINT: first byte is 0")
and never returns a value. -/
theorem C9_zero_first_byte (keep : Bool) (data : List Nat) (pos : Nat)
    (h : data[pos]? = some 0) :
    readVInt keep ⟨data, pos⟩ = .error .malformedVInt := by
  rw [readVInt, readByte, h]
  rfl

/-- Witness for C9 at the one-byte stream `[0x00]`, in both modes. -/
theorem C9_zero_first_byte_witness :
    readVInt false ⟨[0x00], 0⟩ = .error .malformedVInt ∧
    readVInt true ⟨[0x00], 0⟩ = .error .malformedVInt :=
  ⟨C9_zero_first_byte false [0x00] 0 (by decide),
   C9_zero_first_byte true [0x00] 0 (by decide)⟩

/-- **C2, counterexample.**  The claim states that the all-value-bits-set
sentinel fails with `UnsupportedUnknownSize` for *every* declared length 1–8.
At declared length 1 the sentinel size byte is `0xFF`, whose value-mode
decoding is 127; `ReadElement` only rejects the decoded size `2^56 - 1`, so on
the concrete stream `0x81 0xFF` followed by 127 payload bytes it returns an
element of size 127 instead of failing. -/
theorem C2_unknown_size_counterexample :
    readElement ⟨0x81 :: 0xFF :: List.replicate 127 0, 0⟩ =
      .ok (⟨0x81, 127, List.replicate 127 0⟩, ⟨0x81 :: 0xFF :: List.replicate 127 0, 129⟩) ∧
    readElement ⟨0x81 :: 0xFF :: List.replicate 127 0, 0⟩ ≠ .error .unknownSize := by
  constructor
  · decide
  · decide

/-- **C2, amended.**  `ReadElement` fails with `UnsupportedUnknownSize`
exactly on the 8-byte sentinel (the only encoding whose value-mode decoding is
`2^56 - 1`): (1) for every element whose size VINT is the 8-byte all-ones
sentinel, `ReadElement` fails with `UnsupportedUnknownSize`; (2) for every
declared length 1–7, the all-ones sentinel decodes as the ordinary size
`2^(7*L) - 1` and `ReadElement` returns an element of that size rather than
failing. -/
theorem C2_unknown_size_amended :
    (∀ (idLen idVal : Nat) (data rest : List Nat) (pos : Nat), validID idLen idVal →
       data.drop pos = natToBeBytes idLen idVal ++ encodeVIntV 8 (2 ^ 56 - 1) ++ rest →
       readElement ⟨data, pos⟩ = .error .unknownSize) ∧
    (∀ (L idLen idVal : Nat) (payload data rest : List Nat) (pos : Nat), validID idLen idVal →
       1 ≤ L → L ≤ 7 → payload.length = 2 ^ (7 * L) - 1 →
       data.drop pos =
         natToBeBytes idLen idVal ++ encodeVIntV L (2 ^ (7 * L) - 1) ++ payload ++ rest →
       readElement ⟨data, pos⟩ =
         .ok (⟨idVal % 2 ^ 32, payload.length, payload⟩,
              ⟨data, pos + (idLen + L + payload.length)⟩)) := by
  constructor
  · intro idLen idVal data rest pos hid hd
    rw [List.append_assoc] at hd
    have hid' := readVIntID_encode idLen idVal hid data _ pos hd
    have hd2 := drop_append_of_drop (natToBeBytes idLen idVal) hd
    rw [length_natToBeBytes] at hd2
    have hsz := readVInt_encode false 8 (2 ^ 56 - 1) (by norm_num) (by norm_num)
      (by norm_num) data _ _ hd2
    rw [readElement]
    simp [hid', hsz]
  · intro L idLen idVal payload data rest pos hid hL1 hL7 hlen hd
    have hd' : data.drop pos = elemBytes idLen idVal L payload ++ rest := by
      rw [elemBytes, hlen]
      exact hd
    apply readElement_encode idLen idVal L payload data rest pos hid hL1 (by omega)
      (by rw [hlen]; exact Nat.sub_lt (by positivity) (by norm_num)) ?_ hd'
    rw [hlen]
    have h49 : (2 : Nat) ^ (7 * L) ≤ 2 ^ 49 := Nat.pow_le_pow_right (by norm_num) (by omega)
    have h49' : (2 : Nat) ^ 49 < 2 ^ 56 := by norm_num
    have hone : (1 : Nat) ≤ 2 ^ (7 * L) := Nat.one_le_two_pow
    omega

/-- Witness for the amended C2: the 8-byte sentinel
`0xA3 0x01 0xFF×7` fails with `UnsupportedUnknownSize`, while the 1-byte
sentinel `0x81 0xFF` followed by 127 payload bytes yields an element of size
127. -/
theorem C2_unknown_size_amended_witness :
    readElement ⟨[0xA3, 0x01, 0xFF, 0xFF, 0xFF, 0xFF, 0xFF, 0xFF, 0xFF], 0⟩ =
      .error .unknownSize ∧
    readElement ⟨0x81 :: 0xFF :: List.replicate 127 5, 0⟩ =
      .ok (⟨0x81, 127, List.replicate 127 5⟩, ⟨0x81 :: 0xFF :: List.replicate 127 5, 129⟩) := by
  constructor
  · exact C2_unknown_size_amended.1 1 0xA3
      [0xA3, 0x01, 0xFF, 0xFF, 0xFF, 0xFF, 0xFF, 0xFF, 0xFF] [] 0
      (by norm_num [validID]) (by decide)
  · have h := C2_unknown_size_amended.2 1 1 0x81 (List.replicate 127 5)
      (0x81 :: 0xFF :: List.replicate 127 5) [] 0
      (by norm_num [validID]) (by norm_num) (by norm_num) (by decide) (by decide)
    simpa using h

theorem readEBMLHeaderLoop_no_doctype (fuel : Nat) :
    ∀ (bound : Nat) (r : Reader) (h : EBMLHeaderRec) (s : List Nat),
      readEBMLHeaderLoop fuel bound r h ≠ .error (.unsupportedDocType s) := by
  induction fuel with
  | zero =>
    intro bound r h s
    rw [readEBMLHeaderLoop]
    split
    · simp
    · simp
  | succ f ih =>
    intro bound r h s
    rw [readEBMLHeaderLoop]
    split
    · cases hre : readElement r with
      | error e =>
        simp only [hre]
        split
        · simp
        · simp
      | ok p =>
        obtain ⟨el, r1⟩ := p
        simp only [hre]
        exact ih bound r1 (updateEBMLHeaderField h el) s
    · simp

theorem readEBMLHeader_no_doctype (fuel : Nat) (r : Reader) (s : List Nat) :
    readEBMLHeader fuel r ≠ .error (.unsupportedDocType s) := by
  rw [readEBMLHeader]
  cases readElement r with
  | error e => simp
  | ok p =>
    obtain ⟨el, r1⟩ := p
    simp only []
    split
    · simp
    · cases hloop : readEBMLHeaderLoop fuel el.data.length ⟨el.data, 0⟩ emptyEBMLHeader with
      | error e =>
        intro hcon
        simp at hcon
        exact readEBMLHeaderLoop_no_doctype fuel el.data.length ⟨el.data, 0⟩
          emptyEBMLHeader s (hcon ▸ hloop)
      | ok h => simp

/-- **C8.** `parseHeader` fails with `UnsupportedDocType` if and only if the
parsed document header's doc-type byte string is neither exactly "matroska"
nor exactly "webm": (1) when the header parses, the result is the header
itself for "matroska"/"webm" and the `UnsupportedDocType` error carrying the
doc type otherwise; (2) when the header read itself fails, that error is
passed through and is never an `UnsupportedDocType`, so parser construction
fails with `UnsupportedDocType` only through the doc-type check. -/
theorem C8_doc_type_check :
    (∀ (fuel : Nat) (r : Reader) (h : EBMLHeaderRec) (r' : Reader),
       readEBMLHeader fuel r = .ok (h, r') →
       parseHeader fuel r =
         if h.docType = strMatroska ∨ h.docType = strWebm then .ok (h, r')
         else .error (.unsupportedDocType h.docType)) ∧
    (∀ (fuel : Nat) (r : Reader) (e : GoErr),
       readEBMLHeader fuel r = .error e →
       parseHeader fuel r = .error e ∧ ∀ s, e ≠ .unsupportedDocType s) := by
  constructor
  · intro fuel r h r' hok
    rw [parseHeader, hok]
    simp only []
    by_cases hc : h.docType = strMatroska ∨ h.docType = strWebm
    · rw [if_pos hc, if_neg (by tauto)]
    · rw [if_neg hc, if_pos (by tauto)]
  · intro fuel r e herr
    refine ⟨by rw [parseHeader, herr], ?_⟩
    intro s hcon
    exact readEBMLHeader_no_doctype fuel r s (hcon ▸ herr)

/-- Witness for C8: the doc types "avi" (rejected), "matroska" and "webm"
(accepted), each as a concrete EBML header byte stream, and a failing header
read whose error is passed through unchanged. -/
theorem C8_doc_type_check_witness :
    parseHeader 3 ⟨[0x1A, 0x45, 0xDF, 0xA3, 0x86, 0x42, 0x82, 0x83, 0x61, 0x76, 0x69], 0⟩ =
      .error (.unsupportedDocType [0x61, 0x76, 0x69]) ∧
    parseHeader 3 ⟨[0x1A, 0x45, 0xDF, 0xA3, 0x8B, 0x42, 0x82, 0x88,
                    0x6D, 0x61, 0x74, 0x72, 0x6F, 0x73, 0x6B, 0x61], 0⟩ =
      .ok (⟨0, 0, 0, 0, strMatroska, 0, 0⟩,
           ⟨[0x1A, 0x45, 0xDF, 0xA3, 0x8B, 0x42, 0x82, 0x88,
             0x6D, 0x61, 0x74, 0x72, 0x6F, 0x73, 0x6B, 0x61], 16⟩) ∧
    parseHeader 3 ⟨[0x1A, 0x45, 0xDF, 0xA3, 0x87, 0x42, 0x82, 0x84,
                    0x77, 0x65, 0x62, 0x6D], 0⟩ =
      .ok (⟨0, 0, 0, 0, strWebm, 0, 0⟩,
           ⟨[0x1A, 0x45, 0xDF, 0xA3, 0x87, 0x42, 0x82, 0x84, 0x77, 0x65, 0x62, 0x6D], 12⟩) ∧
    parseHeader 3 ⟨[0x00], 0⟩ = .error (.wrapped (.wrapped .malformedVInt)) := by
  refine ⟨?_, ?_, ?_, ?_⟩
  · rw [C8_doc_type_check.1 3 ⟨[0x1A, 0x45, 0xDF, 0xA3, 0x86, 0x42, 0x82, 0x83,
        0x61, 0x76, 0x69], 0⟩ ⟨0, 0, 0, 0, [0x61, 0x76, 0x69], 0, 0⟩
        ⟨[0x1A, 0x45, 0xDF, 0xA3, 0x86, 0x42, 0x82, 0x83, 0x61, 0x76, 0x69], 11⟩ (by decide)]
    decide
  · rw [C8_doc_type_check.1 3 ⟨[0x1A, 0x45, 0xDF, 0xA3, 0x8B, 0x42, 0x82, 0x88,
        0x6D, 0x61, 0x74, 0x72, 0x6F, 0x73, 0x6B, 0x61], 0⟩ ⟨0, 0, 0, 0, strMatroska, 0, 0⟩
        ⟨[0x1A, 0x45, 0xDF, 0xA3, 0x8B, 0x42, 0x82, 0x88,
          0x6D, 0x61, 0x74, 0x72, 0x6F, 0x73, 0x6B, 0x61], 16⟩ (by decide)]
    decide
  · rw [C8_doc_type_check.1 3 ⟨[0x1A, 0x45, 0xDF, 0xA3, 0x87, 0x42, 0x82, 0x84,
        0x77, 0x65, 0x62, 0x6D], 0⟩ ⟨0, 0, 0, 0, strWebm, 0, 0⟩
        ⟨[0x1A, 0x45, 0xDF, 0xA3, 0x87, 0x42, 0x82, 0x84, 0x77, 0x65, 0x62, 0x6D], 12⟩
        (by decide)]
    decide
  · exact (C8_doc_type_check.2 3 ⟨[0x00], 0⟩ (.wrapped (.wrapped .malformedVInt)) (by decide)).1

theorem drop_payload_of_elemBytes (idLen idVal sizeLen : Nat) (payload data rest : List Nat)
    (pos : Nat) (hd : data.drop pos = elemBytes idLen idVal sizeLen payload ++ rest) :
    data.drop (pos + idLen + sizeLen) = payload ++ rest := by
  rw [elemBytes, List.append_assoc, List.append_assoc] at hd
  have h1 := drop_append_of_drop (natToBeBytes idLen idVal) hd
  rw [length_natToBeBytes] at h1
  have h2 := drop_append_of_drop (encodeVIntV sizeLen payload.length) h1
  rwa [encodeVIntV, length_natToBeBytes] at h2

/-- The keyframe bit as stored by `parseSimpleBlock` is set in the packet's
flag bitset exactly when bit 7 of the raw flags byte is set. -/
theorem kf_bit_iff (flags : Nat) (h : flags < 256) :
    ((flags ||| (if flags &&& 0x80 ≠ 0 then KF else 0)) &&& KF ≠ 0) ↔
      flags &&& 0x80 ≠ 0 := by
  revert h
  revert flags
  decide

/-- **C1, counterexample.**  The claim states that for every SimpleBlock
decoded by `ReadPacket` the packet's track equals the parsed track-number
VINT and the start/end times are scaled to milliseconds by the document's
timecode scale.  On the concrete SimpleBlock whose track VINT encodes 256
(bytes `0x41 0x00`), delta 1234, flags `0x80`, under cluster timestamp 1000
and document timecode scale 2,000,000 ns: the code returns track 0 (the VINT
truncated to `uint8`), and start = end = 2234 raw ticks, whereas the claimed
millisecond scaling would give 2234 * 2000000 / 10^6 = 4468.  (The packet's
FilePos is `uint64(Position()) - size` with the tracked position left at the
payload start by the direct `io.ReadFull`: 2 - 6 wraps to 2^64 - 4.) -/
theorem C1_simpleblock_counterexample :
    readPacket 1 ⟨[0xA3, 0x86, 0x41, 0x00, 0x04, 0xD2, 0x80, 0x66], 0⟩ 0 1000 =
      .ok (some { track := 0, startTime := 2234, endTime := 2234,
                  filePos := 18446744073709551612,
                  data := [0x66], flags := 2147483776 },
           ⟨[0xA3, 0x86, 0x41, 0x00, 0x04, 0xD2, 0x80, 0x66], 8⟩, 2, 1000) ∧
    parseVInt [0x41, 0x00, 0x04, 0xD2, 0x80, 0x66] = (256, 2) ∧
    (0 : Nat) ≠ 256 ∧
    specScaledMs 2234 2000000 = 4468 ∧
    (2234 : Nat) ≠ specScaledMs 2234 2000000 := by
  decide

/-- **C1, amended.**  For every SimpleBlock element decoded by `ReadPacket`
(under any cluster timestamp `ts` and tracked position `ep`): the resulting
packet's track is the parsed track-number VINT *reduced modulo 256* (`uint8`
truncation); its start time equals its end time and both equal `ts` plus the
signed 16-bit delta *in raw timecode ticks, wrapped modulo 2^64* (no
timecode-scale conversion is applied anywhere in packet decoding); its
FilePos is the tracked position after the element header minus the payload
size, wrapped modulo 2^64 (the direct `io.ReadFull` does not advance the
tracked position past the payload); the packet body is the lacing-extracted
frame data; and the `KF` keyframe bit of the flag bitset is set exactly when
bit 7 of the flags byte is set. -/
theorem C1_simpleblock_amended (fuel sizeLen : Nat) (B data rest : List Nat) (pos ep ts : Nat)
    (hs1 : 1 ≤ sizeLen) (hs8 : sizeLen ≤ 8) (hlen : B.length < 2 ^ (7 * sizeLen))
    (hd : data.drop pos = elemBytes 1 IDSimpleBlock sizeLen B ++ rest)
    (tn tb : Nat) (htb : parseVInt B = (tn, tb)) (htb0 : tb ≠ 0)
    (hble : B.length ≥ tb + 3) (fd : List Nat)
    (hfd : extractFrameData (B.getD (tb + 2) 0) (B.drop (tb + 3)) = .ok fd)
    (hflag : B.getD (tb + 2) 0 < 256) :
    readPacket (fuel + 1) ⟨data, pos⟩ ep ts =
      .ok (some { track := tn % 2 ^ 8,
                  startTime := addDeltaU64 ts (int16FromBytes (B.getD tb 0) (B.getD (tb + 1) 0)),
                  endTime := addDeltaU64 ts (int16FromBytes (B.getD tb 0) (B.getD (tb + 1) 0)),
                  filePos := subU64 (ep + (1 + sizeLen)) B.length,
                  data := fd,
                  flags := B.getD (tb + 2) 0 |||
                    (if B.getD (tb + 2) 0 &&& 0x80 ≠ 0 then KF else 0) },
           ⟨data, pos + 1 + sizeLen + B.length⟩, ep + (1 + sizeLen), ts) ∧
    ((B.getD (tb + 2) 0 ||| (if B.getD (tb + 2) 0 &&& 0x80 ≠ 0 then KF else 0)) &&& KF ≠ 0
      ↔ B.getD (tb + 2) 0 &&& 0x80 ≠ 0) := by
  have hid : validID 1 IDSimpleBlock := by
    constructor
    · norm_num
    constructor
    · norm_num
    constructor
    · norm_num [IDSimpleBlock]
    · norm_num [IDSimpleBlock]
  have hhdr := readElementHeader_encode 1 IDSimpleBlock sizeLen B data rest pos hid
    hs1 hs8 hlen hd
  have hd3 := drop_payload_of_elemBytes 1 IDSimpleBlock sizeLen B data rest pos hd
  have hfull := readFull_spec B rest data (pos + 1 + sizeLen) hd3
  refine ⟨?_, kf_bit_iff _ hflag⟩
  rw [readPacket]
  simp only [hhdr]
  rw [show IDSimpleBlock % 2 ^ 32 = IDSimpleBlock from by decide]
  rw [if_neg (by decide), if_pos rfl]
  rw [show ep + (pos + 1 + sizeLen - pos) = ep + (1 + sizeLen) from by omega]
  rw [parseSimpleBlock]
  simp only [hfull]
  rw [parseSimpleBlockData]
  simp only [htb, if_neg (show ¬ B.length < 4 by omega)]
  rw [if_neg htb0, if_neg (show ¬ B.length < tb + 2 by omega),
      if_neg (show ¬ B.length < tb + 3 by omega)]
  simp only [hfd]

/-- Witness for the amended C1: the spec's own example block (track 1, delta
1234, flags `0x80`, payload "frame") under cluster timestamp 1000, via
`ReadPacket` from tracked position 0; the recorded FilePos is 2 - 9 wrapped
to 2^64 - 7. -/
theorem C1_simpleblock_amended_witness :
    readPacket 1 ⟨[0xA3, 0x89, 0x81, 0x04, 0xD2, 0x80, 0x66, 0x72, 0x61, 0x6D, 0x65], 0⟩ 0 1000 =
      .ok (some { track := 1, startTime := 2234, endTime := 2234,
                  filePos := 18446744073709551609,
                  data := [0x66, 0x72, 0x61, 0x6D, 0x65], flags := 2147483776 },
           ⟨[0xA3, 0x89, 0x81, 0x04, 0xD2, 0x80, 0x66, 0x72, 0x61, 0x6D, 0x65], 11⟩, 2, 1000) ∧
    ((0x80 ||| KF) &&& KF ≠ 0) := by
  have h := C1_simpleblock_amended 0 1
    [0x81, 0x04, 0xD2, 0x80, 0x66, 0x72, 0x61, 0x6D, 0x65]
    [0xA3, 0x89, 0x81, 0x04, 0xD2, 0x80, 0x66, 0x72, 0x61, 0x6D, 0x65] [] 0 0 1000
    (by norm_num) (by norm_num) (by decide) (by decide)
    1 1 (by decide) (by decide) (by decide)
    [0x66, 0x72, 0x61, 0x6D, 0x65] (by decide) (by decide)
  constructor
  · rw [h.1]
    decide
  · have h2 := h.2
    revert h2
    decide

/-- **C4.** For every fixed-size-laced SimpleBlock (lacing flag bits
`flags &&& 0x06 = 0x02`) whose frame-count byte is `c ≥ 1` (so the frame
count `n = c + 1` is greater than 1), the decoder returns exactly one packet,
whose body is the first `⌊len / n⌋` bytes of the laced region following the
frame-count byte, `len` being that region's length. -/
theorem C4_fixed_lacing (B : List Nat) (ts fp tn tb : Nat)
    (htb : parseVInt B = (tn, tb)) (htb0 : tb ≠ 0) (hble : B.length ≥ tb + 3)
    (hlace : B.getD (tb + 2) 0 &&& 0x06 = 0x02)
    (c : Nat) (region : List Nat) (hregion : B.drop (tb + 3) = c :: region) (hc : 1 ≤ c) :
    ∃ pkt : Packet, parseSimpleBlockData B ts fp = .ok pkt ∧
      pkt.data = region.take (region.length / (c + 1)) := by
  have hext : extractFrameData (B.getD (tb + 2) 0) (B.drop (tb + 3)) =
      .ok (region.take (region.length / (c + 1))) := by
    rw [extractFrameData.eq_def, hregion]
    simp only [hlace]
    norm_num
    omega
  refine ⟨⟨tn % 2 ^ 8,
    addDeltaU64 ts (int16FromBytes (B.getD tb 0) (B.getD (tb + 1) 0)),
    addDeltaU64 ts (int16FromBytes (B.getD tb 0) (B.getD (tb + 1) 0)), fp,
    region.take (region.length / (c + 1)),
    B.getD (tb + 2) 0 ||| (if B.getD (tb + 2) 0 &&& 0x80 ≠ 0 then KF else 0)⟩, ?_, rfl⟩
  rw [parseSimpleBlockData]
  simp only [htb, if_neg (show ¬ B.length < 4 by omega)]
  rw [if_neg htb0, if_neg (show ¬ B.length < tb + 2 by omega),
      if_neg (show ¬ B.length < tb + 3 by omega)]
  simp only [hext]

/-- Witness for C4: a fixed-size-laced block with 2 frames of 2 bytes each;
only the first frame `[10, 20]` is kept. -/
theorem C4_fixed_lacing_witness : ∃ pkt : Packet,
    parseSimpleBlockData [0x81, 0x00, 0x00, 0x02, 1, 10, 20, 30, 40] 0 0 = .ok pkt ∧
    pkt.data = [10, 20] := by
  obtain ⟨pkt, h1, h2⟩ := C4_fixed_lacing [0x81, 0x00, 0x00, 0x02, 1, 10, 20, 30, 40] 0 0 1 1
    (by decide) (by decide) (by decide) (by decide) 1 [10, 20, 30, 40] (by decide) (by decide)
  refine ⟨pkt, h1, ?_⟩
  rw [h2]
  decide

/-! ## Lists of encoded elements -/

/-- One element of a well-formed child sequence, in encoded form. -/
structure EncElem where
  idLen : Nat
  idVal : Nat
  sizeLen : Nat
  payload : List Nat
  deriving Repr, DecidableEq

/-- The bytes of one encoded element. -/
def EncElem.bytes (e : EncElem) : List Nat := elemBytes e.idLen e.idVal e.sizeLen e.payload

/-- Well-formedness: canonical ID, encodable size, size not the 8-byte
unknown-size sentinel value. -/
def EncElem.wf (e : EncElem) : Prop :=
  validID e.idLen e.idVal ∧ 1 ≤ e.sizeLen ∧ e.sizeLen ≤ 8 ∧
    e.payload.length < 2 ^ (7 * e.sizeLen) ∧ e.payload.length ≠ 2 ^ 56 - 1

instance (e : EncElem) : Decidable e.wf := by
  unfold EncElem.wf validID
  infer_instance

/-- Concatenated encoding of a child sequence. -/
def encodeElems (es : List EncElem) : List Nat := (es.map EncElem.bytes).flatten

theorem encodeElems_nil : encodeElems [] = [] := rfl

theorem encodeElems_cons (e : EncElem) (es : List EncElem) :
    encodeElems (e :: es) = e.bytes ++ encodeElems es := by
  simp [encodeElems]

theorem EncElem.bytes_length (e : EncElem) :
    e.bytes.length = e.idLen + e.sizeLen + e.payload.length :=
  length_elemBytes _ _ _ _

theorem EncElem.bytes_ne_nil (e : EncElem) (hwf : e.wf) : e.bytes ≠ [] := by
  intro h
  have := congrArg List.length h
  rw [e.bytes_length] at this
  simp at this
  obtain ⟨⟨h1, -⟩, -⟩ := hwf
  omega

theorem readElement_encodeElem (e : EncElem) (hwf : e.wf) (data rest : List Nat) (pos : Nat)
    (hd : data.drop pos = e.bytes ++ rest) :
    readElement ⟨data, pos⟩ =
      .ok (⟨e.idVal % 2 ^ 32, e.payload.length, e.payload⟩, ⟨data, pos + e.bytes.length⟩) := by
  obtain ⟨hid, hs1, hs8, hplen, hsent⟩ := hwf
  rw [e.bytes_length]
  exact readElement_encode e.idLen e.idVal e.sizeLen e.payload data rest pos hid hs1 hs8
    hplen hsent hd

theorem pos_lt_of_drop_cons {data rest : List Nat} {pos : Nat} (e : EncElem) (hwf : e.wf)
    (hd : data.drop pos = e.bytes ++ rest) : pos < data.length := by
  have hlen := congrArg List.length hd
  rw [List.length_drop, List.length_append, e.bytes_length] at hlen
  obtain ⟨⟨h1, -⟩, -⟩ := hwf
  omega

theorem pos_ge_of_drop_nil {data : List Nat} {pos : Nat} (hd : data.drop pos = []) :
    data.length ≤ pos := by
  have hlen := congrArg List.length hd
  rw [List.length_drop] at hlen
  simp at hlen
  omega

/-! ## The BlockGroup child walk over encoded sequences -/

/-- The effect of `parseBlockGroup`'s child loop on an encoded child
sequence: remember the last `Block` packet and the last `0x9B` BlockDuration
value (proof device mirroring the dispatch of the loop). -/
def bgSpec (ts fp : Nat) : List EncElem → Option Packet → Nat → Except GoErr (Option Packet × Nat)
  | [], packet, duration => .ok (packet, duration)
  | e :: es, packet, duration =>
    if e.idVal % 2 ^ 32 = IDBlock then
      match parseBlockData e.payload ts fp with
      | .error err => .error err
      | .ok p => bgSpec ts fp es (some p) duration
    else if e.idVal % 2 ^ 32 = 0x9B then
      bgSpec ts fp es packet (EBMLElement.readUInt ⟨e.idVal % 2 ^ 32, e.payload.length, e.payload⟩)
    else bgSpec ts fp es packet duration

theorem parseBlockGroupLoop_spec (es : List EncElem) :
    ∀ (fuel : Nat) (D : List Nat) (pos : Nat) (packet : Option Packet) (duration ts fp : Nat),
      (∀ e ∈ es, e.wf) → D.drop pos = encodeElems es → es.length ≤ fuel →
      parseBlockGroupLoop fuel ts fp ⟨D, pos⟩ packet duration =
        bgSpec ts fp es packet duration := by
  induction es with
  | nil =>
    intro fuel D pos packet duration ts fp _ hd _
    rw [encodeElems_nil] at hd
    rw [parseBlockGroupLoop.eq_def]
    simp only []
    rw [if_neg (by
      have := pos_ge_of_drop_nil hd
      omega)]
    rfl
  | cons e es ih =>
    intro fuel D pos packet duration ts fp hwf hd hfuel
    rw [encodeElems_cons] at hd
    have hewf : e.wf := hwf e (List.mem_cons_self e es)
    have hlt : pos < D.length := pos_lt_of_drop_cons e hewf hd
    obtain ⟨f, rfl⟩ : ∃ f, fuel = f + 1 := ⟨fuel - 1, by simp at hfuel; omega⟩
    have hre := readElement_encodeElem e hewf D _ pos hd
    have hdrop : D.drop (pos + e.bytes.length) = encodeElems es :=
      drop_append_of_drop e.bytes hd
    rw [parseBlockGroupLoop.eq_def]
    simp only []
    rw [if_pos hlt]
    simp only [hre, bgSpec]
    by_cases hb : e.idVal % 2 ^ 32 = IDBlock
    · rw [if_pos hb, if_pos hb]
      cases parseBlockData e.payload ts fp with
      | error err => rfl
      | ok p =>
        exact ih f D (pos + e.bytes.length) (some p) duration ts fp
          (fun x hx => hwf x (List.mem_cons_of_mem e hx)) hdrop (by simp at hfuel; omega)
    · rw [if_neg hb, if_neg hb]
      by_cases h9 : e.idVal % 2 ^ 32 = 0x9B
      · rw [if_pos h9, if_pos h9]
        exact ih f D (pos + e.bytes.length) packet _ ts fp
          (fun x hx => hwf x (List.mem_cons_of_mem e hx)) hdrop (by simp at hfuel; omega)
      · rw [if_neg h9, if_neg h9]
        exact ih f D (pos + e.bytes.length) packet duration ts fp
          (fun x hx => hwf x (List.mem_cons_of_mem e hx)) hdrop (by simp at hfuel; omega)

theorem bgSpec_no_block (ts fp : Nat) (es : List EncElem)
    (h : ∀ e ∈ es, e.idVal % 2 ^ 32 ≠ IDBlock) :
    ∀ packet duration, ∃ d, bgSpec ts fp es packet duration = .ok (packet, d) := by
  induction es with
  | nil => intro packet duration; exact ⟨duration, rfl⟩
  | cons e es ih =>
    intro packet duration
    rw [bgSpec, if_neg (h e (List.mem_cons_self e es))]
    by_cases h9 : e.idVal % 2 ^ 32 = 0x9B
    · rw [if_pos h9]
      exact ih (fun x hx => h x (List.mem_cons_of_mem e hx)) packet _
    · rw [if_neg h9]
      exact ih (fun x hx => h x (List.mem_cons_of_mem e hx)) packet duration

/-- **C10.** For every BlockGroup element whose (well-formed) payload contains
no `Block` child — including an empty payload — `parseBlockGroup` produces no
packet and no error (for every FilePos value, which cannot affect a `none`
result), and `ReadPacket` therefore returns the Go pair `(nil, nil)`: a nil
packet together with a nil error (modelled `.ok none`), neither a valid
packet nor an error nor the end-of-stream signal. -/
theorem C10_blockgroup_nil_nil (fuel szLen : Nat) (es : List EncElem) (data rest : List Nat)
    (pos ep ts : Nat) (hs1 : 1 ≤ szLen) (hs8 : szLen ≤ 8)
    (hlen : (encodeElems es).length < 2 ^ (7 * szLen))
    (hwf : ∀ e ∈ es, e.wf) (hnoblock : ∀ e ∈ es, e.idVal % 2 ^ 32 ≠ IDBlock)
    (hfuel : es.length ≤ fuel)
    (hd : data.drop pos = elemBytes 1 IDBlockGroup szLen (encodeElems es) ++ rest) :
    (∀ fp, parseBlockGroupData fuel (encodeElems es) ts fp = .ok none) ∧
    readPacket (fuel + 1) ⟨data, pos⟩ ep ts =
      .ok (none, ⟨data, pos + 1 + szLen + (encodeElems es).length⟩, ep + (1 + szLen), ts) := by
  have hbgdata : ∀ fp, parseBlockGroupData fuel (encodeElems es) ts fp = .ok none := by
    intro fp
    rw [parseBlockGroupData]
    obtain ⟨d, hbg⟩ := bgSpec_no_block ts fp es hnoblock none 0
    rw [parseBlockGroupLoop_spec es fuel (encodeElems es) 0 none 0 ts fp
          hwf (by rw [List.drop_zero]) hfuel, hbg]
  refine ⟨hbgdata, ?_⟩
  have hid : validID 1 IDBlockGroup := by
    refine ⟨by norm_num, by norm_num, ?_, ?_⟩
    · norm_num [IDBlockGroup]
    · norm_num [IDBlockGroup]
  have hhdr := readElementHeader_encode 1 IDBlockGroup szLen (encodeElems es) data rest pos
    hid hs1 hs8 hlen hd
  have hd3 := drop_payload_of_elemBytes 1 IDBlockGroup szLen (encodeElems es) data rest pos hd
  have hfull := readFull_spec (encodeElems es) rest data (pos + 1 + szLen) hd3
  rw [readPacket]
  simp only [hhdr]
  rw [show IDBlockGroup % 2 ^ 32 = IDBlockGroup from by decide]
  rw [if_neg (by decide), if_neg (by decide), if_pos rfl]
  rw [show ep + (pos + 1 + szLen - pos) = ep + (1 + szLen) from by omega]
  rw [parseBlockGroup]
  simp only [hfull]
  rw [hbgdata (subU64 (ep + (1 + szLen)) (encodeElems es).length)]

/-- Witness for C10: a BlockGroup with empty payload (`0xA0 0x80`), and one
whose only child is a BlockDuration (`0x9B`), both yield `(nil, nil)` from
`ReadPacket`. -/
theorem C10_blockgroup_nil_nil_witness :
    readPacket 1 ⟨[0xA0, 0x80], 0⟩ 0 7 = .ok (none, ⟨[0xA0, 0x80], 2⟩, 2, 7) ∧
    readPacket 2 ⟨[0xA0, 0x83, 0x9B, 0x81, 0x05], 0⟩ 0 7 =
      .ok (none, ⟨[0xA0, 0x83, 0x9B, 0x81, 0x05], 5⟩, 2, 7) := by
  constructor
  · have h := (C10_blockgroup_nil_nil 0 1 [] [0xA0, 0x80] [] 0 0 7
      (by norm_num) (by norm_num) (by decide) (by simp) (by simp) (by simp) (by decide)).2
    rw [h]
    decide
  · have h := (C10_blockgroup_nil_nil 1 1 [⟨1, 0x9B, 1, [0x05]⟩]
      [0xA0, 0x83, 0x9B, 0x81, 0x05] [] 0 0 7
      (by norm_num) (by norm_num) (by decide)
      (by
        intro e he
        simp at he
        subst he
        refine ⟨⟨by norm_num, by norm_num, by norm_num, by norm_num⟩, by norm_num, by norm_num,
          by norm_num, by norm_num⟩)
      (by
        intro e he
        simp at he
        subst he
        decide)
      (by norm_num) (by decide)).2
    rw [h]
    decide

/-- **C5, counterexample.**  The claim states that an explicit BlockDuration D
makes the packet's end time `start + D` *scaled* to milliseconds by the
document's timecode scale.  On a concrete BlockGroup with D = 5 under cluster
timestamp 1000 and document timecode scale 2,000,000 ns, the code yields
`end = start + 5` raw ticks (1005), whereas the claimed scaling would give
`start + 10` (the scaled D being 5 * 2000000 / 10^6 = 10). -/
theorem C5_blockgroup_counterexample :
    parseBlockGroupData 2 [0xA1, 0x85, 0x81, 0x00, 0x00, 0x00, 0x66, 0x9B, 0x81, 0x05]
        1000 0 =
      .ok (some { track := 1, startTime := 1000, endTime := 1005, filePos := 0,
                  data := [0x66], flags := KF }) ∧
    specScaledMs 5 2000000 = 10 ∧
    (1005 : Nat) ≠ 1000 + specScaledMs 5 2000000 := by
  decide

/-- **C5, amended.**  For every BlockGroup containing a Block child: the
Block's frame bytes start after the track VINT, the 2-byte delta, and one
skipped flags byte (`blockData[trackBytes+3:]`); the packet is marked
keyframe unconditionally (`Flags = KF`); if an explicit BlockDuration D is
present the packet's end time equals its start time plus D *in raw timecode
ticks wrapped modulo 2^64* (no timecode-scale conversion; and for D = 0 the
end time stays equal to the start time); with no BlockDuration the end time
equals the start time. -/
theorem C5_blockgroup_amended (fuel slB slD : Nat) (B P : List Nat) (ts fp tn tb : Nat)
    (hsB1 : 1 ≤ slB) (hsB8 : slB ≤ 8) (hBlen : B.length < 2 ^ (7 * slB))
    (hBsent : B.length ≠ 2 ^ 56 - 1)
    (hsD1 : 1 ≤ slD) (hsD8 : slD ≤ 8) (hPlen : P.length < 2 ^ (7 * slD))
    (hPsent : P.length ≠ 2 ^ 56 - 1)
    (htb : parseVInt B = (tn, tb)) (htb0 : tb ≠ 0) (hble : B.length ≥ tb + 3)
    (hfuel : 2 ≤ fuel) :
    parseBlockGroupData fuel (encodeElems [⟨1, IDBlock, slB, B⟩, ⟨1, 0x9B, slD, P⟩]) ts fp =
      .ok (some
        { track := tn % 2 ^ 8,
          startTime := addDeltaU64 ts (int16FromBytes (B.getD tb 0) (B.getD (tb + 1) 0)),
          endTime :=
            if 0 < EBMLElement.readUInt ⟨0x9B, P.length, P⟩ then
              (addDeltaU64 ts (int16FromBytes (B.getD tb 0) (B.getD (tb + 1) 0)) +
                EBMLElement.readUInt ⟨0x9B, P.length, P⟩) % 2 ^ 64
            else addDeltaU64 ts (int16FromBytes (B.getD tb 0) (B.getD (tb + 1) 0)),
          filePos := fp, data := B.drop (tb + 3), flags := KF }) ∧
    parseBlockGroupData fuel (encodeElems [⟨1, IDBlock, slB, B⟩]) ts fp =
      .ok (some
        { track := tn % 2 ^ 8,
          startTime := addDeltaU64 ts (int16FromBytes (B.getD tb 0) (B.getD (tb + 1) 0)),
          endTime := addDeltaU64 ts (int16FromBytes (B.getD tb 0) (B.getD (tb + 1) 0)),
          filePos := fp, data := B.drop (tb + 3), flags := KF }) := by
  have hblock : parseBlockData B ts fp =
      .ok { track := tn % 2 ^ 8,
            startTime := addDeltaU64 ts (int16FromBytes (B.getD tb 0) (B.getD (tb + 1) 0)),
            endTime := addDeltaU64 ts (int16FromBytes (B.getD tb 0) (B.getD (tb + 1) 0)),
            filePos := fp, data := B.drop (tb + 3), flags := KF } := by
    rw [parseBlockData]
    simp only [htb, if_neg (show ¬ B.length < 4 by omega)]
    rw [if_neg htb0, if_neg (show ¬ B.length < tb + 3 by omega)]
  have hwfB : EncElem.wf ⟨1, IDBlock, slB, B⟩ := by
    refine ⟨⟨by norm_num, by norm_num, ?_, ?_⟩, hsB1, hsB8, hBlen, hBsent⟩
    · norm_num [IDBlock]
    · norm_num [IDBlock]
  have hwfP : EncElem.wf ⟨1, 0x9B, slD, P⟩ := by
    refine ⟨⟨by norm_num, by norm_num, by norm_num, by norm_num⟩, hsD1, hsD8, hPlen, hPsent⟩
  constructor
  · rw [parseBlockGroupData,
        parseBlockGroupLoop_spec [⟨1, IDBlock, slB, B⟩, ⟨1, 0x9B, slD, P⟩] fuel _ 0 none 0 ts fp
          (by
            intro e he
            simp at he
            rcases he with he | he <;> subst he
            · exact hwfB
            · exact hwfP)
          (by rw [List.drop_zero]) (by simpa using hfuel)]
    rw [bgSpec]
    simp only []
    rw [show (IDBlock : Nat) % 2 ^ 32 = IDBlock from by decide, if_pos rfl]
    simp only [hblock]
    rw [bgSpec]
    simp only []
    rw [show (0x9B : Nat) % 2 ^ 32 = 0x9B from by decide]
    rw [if_neg (by decide), if_pos rfl]
    rw [bgSpec]
    simp only []
    by_cases hdv : 0 < EBMLElement.readUInt ⟨0x9B, P.length, P⟩
    · rw [if_pos (by simpa using hdv), if_pos hdv]
    · rw [if_neg (by simpa using hdv), if_neg hdv]
  · rw [parseBlockGroupData,
        parseBlockGroupLoop_spec [⟨1, IDBlock, slB, B⟩] fuel _ 0 none 0 ts fp
          (by
            intro e he
            simp at he
            subst he
            exact hwfB)
          (by rw [List.drop_zero]) (by simp; omega)]
    rw [bgSpec]
    simp only []
    rw [show (IDBlock : Nat) % 2 ^ 32 = IDBlock from by decide, if_pos rfl]
    simp only [hblock]
    rw [bgSpec]
    rfl

/-- Witness for the amended C5: a concrete BlockGroup (track 1, delta 0,
payload `[0x66]`) with and without a BlockDuration of 5, under cluster
timestamp 1000. -/
theorem C5_blockgroup_amended_witness :
    parseBlockGroupData 2 [0xA1, 0x85, 0x81, 0x00, 0x00, 0x00, 0x66, 0x9B, 0x81, 0x05] 1000 3 =
      .ok (some { track := 1, startTime := 1000, endTime := 1005, filePos := 3,
                  data := [0x66], flags := KF }) ∧
    parseBlockGroupData 2 [0xA1, 0x85, 0x81, 0x00, 0x00, 0x00, 0x66] 1000 3 =
      .ok (some { track := 1, startTime := 1000, endTime := 1000, filePos := 3,
                  data := [0x66], flags := KF }) := by
  have h := C5_blockgroup_amended 2 1 1 [0x81, 0x00, 0x00, 0x00, 0x66] [0x05] 1000 3 1 1
    (by norm_num) (by norm_num) (by decide) (by decide)
    (by norm_num) (by norm_num) (by decide) (by decide)
    (by decide) (by decide) (by decide) (by norm_num)
  constructor
  · have h1 := h.1
    rw [show encodeElems [⟨1, IDBlock, 1, [0x81, 0x00, 0x00, 0x00, 0x66]⟩, ⟨1, 0x9B, 1, [0x05]⟩] =
          [0xA1, 0x85, 0x81, 0x00, 0x00, 0x00, 0x66, 0x9B, 0x81, 0x05] from by decide] at h1
    rw [h1]
    decide
  · have h2 := h.2
    rw [show encodeElems [⟨1, IDBlock, 1, [0x81, 0x00, 0x00, 0x00, 0x66]⟩] =
          [0xA1, 0x85, 0x81, 0x00, 0x00, 0x00, 0x66] from by decide] at h2
    rw [h2]
    decide

/-! ## The segment-children walk over encoded sequences -/

theorem insertByNumber_perm (x : TrackInfo) (l : List TrackInfo) :
    (insertByNumber x l).Perm (x :: l) := by
  induction l with
  | nil => exact List.Perm.refl _
  | cons y rest ih =>
    rw [insertByNumber]
    split
    · exact (ih.cons y).trans (List.Perm.swap x y rest)
    · exact List.Perm.refl _

theorem insertByNumber_sorted (x : TrackInfo) (l : List TrackInfo)
    (h : l.Sorted trackNumberLE) : (insertByNumber x l).Sorted trackNumberLE := by
  induction l with
  | nil => simp [insertByNumber, trackNumberLE]
  | cons y rest ih =>
    rw [List.sorted_cons] at h
    rw [insertByNumber]
    split
    · rename_i hyx
      rw [List.sorted_cons]
      refine ⟨?_, ih h.2⟩
      intro b hb
      rcases List.mem_cons.mp ((insertByNumber_perm x rest).mem_iff.mp hb) with hbx | hbr
      · subst hbx
        exact Nat.le_of_lt hyx
      · exact h.1 b hbr
    · rename_i hyx
      rw [List.sorted_cons, List.sorted_cons]
      refine ⟨?_, h⟩
      intro b hb
      rcases List.mem_cons.mp hb with hby | hbr
      · subst hby
        unfold trackNumberLE
        omega
      · have hyb := h.1 b hbr
        unfold trackNumberLE at hyb ⊢
        omega

theorem stableSortByNumber_perm (l : List TrackInfo) : (stableSortByNumber l).Perm l := by
  induction l with
  | nil => exact List.Perm.refl _
  | cons x rest ih =>
    rw [stableSortByNumber]
    exact (insertByNumber_perm x (stableSortByNumber rest)).trans (ih.cons x)

theorem stableSortByNumber_sorted (l : List TrackInfo) :
    (stableSortByNumber l).Sorted trackNumberLE := by
  induction l with
  | nil => simp [stableSortByNumber]
  | cons x rest ih => exact insertByNumber_sorted x _ ih

/-- Two lists that are permutations of each other, both ordered by track
number, with pairwise-distinct track numbers, are equal: with distinct track
numbers the `sort.Slice` contract determines the output uniquely. -/
theorem sorted_perm_nodup_unique (out : List TrackInfo) :
    ∀ out' : List TrackInfo, out.Perm out' → out.Sorted trackNumberLE →
      out'.Sorted trackNumberLE → (out.map TrackInfo.number).Nodup → out = out' := by
  induction out with
  | nil =>
    intro out' hperm _ _ _
    exact (List.Perm.eq_nil hperm.symm).symm
  | cons x xs ih =>
    intro out' hperm hs hs' hnd
    match out' with
    | [] => exact absurd hperm.symm (by simp)
    | y :: ys =>
      by_cases hxy : x = y
      · subst hxy
        have htail : xs.Perm ys := hperm.cons_inv
        rw [List.sorted_cons] at hs hs'
        rw [List.map_cons, List.nodup_cons] at hnd
        rw [ih ys htail hs.2 hs'.2 hnd.2]
      · exfalso
        have hyin : y ∈ x :: xs := hperm.mem_iff.mpr (List.mem_cons_self y ys)
        have hyxs : y ∈ xs := by
          rcases List.mem_cons.mp hyin with h1 | h1
          · exact absurd h1.symm hxy
          · exact h1
        have hxin : x ∈ y :: ys := hperm.mem_iff.mp (List.mem_cons_self x xs)
        have hxys : x ∈ ys := by
          rcases List.mem_cons.mp hxin with h1 | h1
          · exact absurd h1 hxy
          · exact h1
        rw [List.sorted_cons] at hs hs'
        have h1 : x.number ≤ y.number := hs.1 y hyxs
        have h2 : y.number ≤ x.number := hs'.1 x hxys
        rw [List.map_cons, List.nodup_cons] at hnd
        exact hnd.1 (by
          have : y.number = x.number := by omega
          rw [← this]
          exact List.mem_map_of_mem TrackInfo.number hyxs)

instance : DecidableRel trackNumberLE :=
  fun a b => inferInstanceAs (Decidable (a.number ≤ b.number))

/-- Tracks bytes for the distinct-numbers run: three TrackEntry elements whose
TrackNumber children carry 3, 1, 2 in file order. -/
def c7Bytes : List Nat :=
  [0xAE, 0x83, 0xD7, 0x81, 3, 0xAE, 0x83, 0xD7, 0x81, 1, 0xAE, 0x83, 0xD7, 0x81, 2]

/-- A default track with the given number. -/
def c7Track (n : Nat) : TrackInfo := { TrackInfo.init with number := n }

/-- Tracks bytes with a tie: two TrackEntry elements, both TrackNumber 7,
TrackUID 1 then 2 in file order. -/
def c7TieBytes : List Nat :=
  [0xAE, 0x87, 0xD7, 0x81, 7, 0x73, 0xC5, 0x81, 1,
   0xAE, 0x87, 0xD7, 0x81, 7, 0x73, 0xC5, 0x81, 2]

/-- A default track with number 7 and the given UID. -/
def c7T7 (u : Nat) : TrackInfo := { TrackInfo.init with number := 7, uid := u }

set_option maxHeartbeats 1600000 in
theorem c7_sort_loop : parseTracksLoop 10 15 ⟨c7Bytes, 0⟩ []
    = .ok [c7Track 3, c7Track 1, c7Track 2] := by decide

theorem c7_sort_data : parseTracksData 10 15 ⟨c7Bytes, 0⟩ []
    = .ok ([c7Track 3, c7Track 1, c7Track 2], ⟨c7Bytes, 15⟩) := by
  rw [parseTracksData]
  rw [show readFull 15 ⟨c7Bytes, 0⟩ = .ok (c7Bytes, ⟨c7Bytes, 15⟩) from by decide]
  simp only []
  rw [c7_sort_loop]

set_option maxHeartbeats 1600000 in
theorem c7_tie_loop : parseTracksLoop 10 18 ⟨c7TieBytes, 0⟩ []
    = .ok [c7T7 1, c7T7 2] := by decide

theorem c7_tie_data : parseTracksData 10 18 ⟨c7TieBytes, 0⟩ []
    = .ok ([c7T7 1, c7T7 2], ⟨c7TieBytes, 18⟩) := by
  rw [parseTracksData]
  rw [show readFull 18 ⟨c7TieBytes, 0⟩ = .ok (c7TieBytes, ⟨c7TieBytes, 18⟩) from by decide]
  simp only []
  rw [c7_tie_loop]

/-- C7 counterexample to the stability part of the claim: `parseTracks` sorts
with Go's `sort.Slice`, whose contract (`sortSliceContract`) guarantees a
permutation ordered by track number but no stability. For two TrackEntries
that tie on number 7 (file order UID 1 then UID 2), the reversed order also
satisfies the contract, so "ties are ordered stably (file order preserved)"
does not follow from the code. -/
theorem C7_counterexample :
    parseTracksData 10 18 ⟨c7TieBytes, 0⟩ [] = .ok ([c7T7 1, c7T7 2], ⟨c7TieBytes, 18⟩) ∧
      sortSliceContract [c7T7 1, c7T7 2] [c7T7 2, c7T7 1] ∧
      [c7T7 2, c7T7 1] ≠ [c7T7 1, c7T7 2] := by
  refine ⟨c7_tie_data, ⟨List.Perm.swap (c7T7 1) (c7T7 2) [], ?_⟩, by decide⟩
  simp [List.sorted_cons, trackNumberLE, c7T7]

/-- C7 (amended): after `parseTracks`, the track list is sorted ascending by
track number regardless of file order: whenever the TrackEntry walk
(`parseTracksData`) yields the file-order list `L`, `parseTracks` returns a
contract-satisfying sort of `L`, every output admitted by the `sort.Slice`
contract is a permutation of `L` sorted by number, and when the track numbers
are pairwise distinct that output is uniquely determined (e.g. file order
3, 1, 2 yields 1, 2, 3). Tie order among equal numbers is not specified:
`sort.Slice` is documented as unstable (see the counterexample). -/
theorem C7_tracks_sorted (fuel size : Nat) (r : Reader) (L : List TrackInfo)
    (r' : Reader) (out : List TrackInfo)
    (hdata : parseTracksData fuel size r [] = .ok (L, r'))
    (hsort : sortSliceContract L out) :
    parseTracks fuel size r [] = .ok (stableSortByNumber L, r') ∧
      out.Sorted trackNumberLE ∧ out.Perm L ∧
      ((L.map TrackInfo.number).Nodup → out = stableSortByNumber L) := by
  refine ⟨?_, hsort.2, hsort.1, ?_⟩
  · rw [parseTracks, hdata]
  · intro hnd
    have hperm : (stableSortByNumber L).Perm out :=
      (stableSortByNumber_perm L).trans hsort.1.symm
    have hnd' : ((stableSortByNumber L).map TrackInfo.number).Nodup :=
      (((stableSortByNumber_perm L).map TrackInfo.number).nodup_iff).mpr hnd
    exact (sorted_perm_nodup_unique (stableSortByNumber L) out hperm
      (stableSortByNumber_sorted L) hsort.2 hnd').symm

/-- C7 witness: TrackEntries in file order 3, 1, 2 (15 bytes) produce the
descriptor sequence ordered 1, 2, 3. -/
theorem C7_tracks_sorted_witness :
    parseTracks 10 15 ⟨c7Bytes, 0⟩ [] =
        .ok ([c7Track 1, c7Track 2, c7Track 3], ⟨c7Bytes, 15⟩) ∧
      [c7Track 1, c7Track 2, c7Track 3].Sorted trackNumberLE := by
  have h := C7_tracks_sorted 10 15 ⟨c7Bytes, 0⟩
      [c7Track 3, c7Track 1, c7Track 2] ⟨c7Bytes, 15⟩
      [c7Track 1, c7Track 2, c7Track 3] c7_sort_data
      ⟨by decide, by simp [List.sorted_cons, trackNumberLE, c7Track]⟩
  refine ⟨?_, h.2.1⟩
  rw [h.1]
  decide

end MatroskaGo
